import Mathlib

/-!
Verification of the photocull photo-deduplication engine.

Shallow embedding of the core algorithms of the repository:

* `src/frontend/src/utils/duplicateDetection.ts` — difference-hash fingerprinting
  (`calculateImageHash` / `binaryToHex`), Hamming distance and similarity
  (`hexToBinary` / `calculateHammingDistance` / `calculateSimilarity`) and
  greedy clustering (`findDuplicateGroups`).
* `src/frontend/src/utils/rawThumbnailExtractor.ts` — embedded JPEG preview
  scanning (`findJpegMarker` / `findBestJpegPreview`).
* `src/frontend/src/utils/qualityAnalysis.ts` — sharpness scoring
  (`calculateBlurScore`).
* `src/backend/src/index.js` — trash lifecycle (`moveToTrash` route body,
  `emptyTrash` route body).
* `src/backend/src/scanner.js` — scan exclusivity (`DirectoryScanner.scanDirectory`).

JS strings are modelled as `List Char`, JS numbers on integer-valued paths as
`Nat`/`Int`, and JS floating-point arithmetic as exact arithmetic over `ℚ`
(or `ℝ` where `Math.sqrt` is involved).  JS `Map` objects are modelled as
insertion-ordered association lists with pairwise-distinct keys.
-/

/-! ## duplicateDetection.ts: dHash bits and hex encoding -/

/-- `Math.round` of a non-negative JS number: floor of `q + 1/2`. -/
def jsRound (q : ℚ) : ℤ := ⌊q + 1/2⌋

/-- Luminance formula used throughout the frontend:
`0.299 * R + 0.587 * G + 0.114 * B` (duplicateDetection.ts line 48). -/
def luminance (p : ℕ × ℕ × ℕ) : ℚ :=
  0.299 * (p.1 : ℚ) + 0.587 * (p.2.1 : ℚ) + 0.114 * (p.2.2 : ℚ)

/-- The grayscale sample array built by `calculateImageHash` (lines 45-50):
entry `i` is the rounded luminance of RGB sample `i` of the 9-by-8 canvas,
flattened row-major (`pixelIndex = row * 9 + col`). -/
def grayPixel (pixels : ℕ → ℕ × ℕ × ℕ) (i : ℕ) : ℤ :=
  jsRound (luminance (pixels i))

/-- The 64 dHash bits of `calculateImageHash` (lines 53-66): for each of the
8 rows and 8 columns, bit `(row, col)` is `true` exactly when the grayscale
sample at `row * 9 + col` is strictly less than its right neighbour. The
bits are concatenated row-major, as the string `hash` is in the source. -/
def dHashBits (pixels : ℕ → ℕ × ℕ × ℕ) : List Bool :=
  (List.range 8).flatMap fun row =>
    (List.range 8).map fun col =>
      decide (grayPixel pixels (row * 9 + col) < grayPixel pixels (row * 9 + col + 1))

/-- `parseInt(chunk, 2)` for a chunk of binary digits, most significant first. -/
def bitsToNat (bits : List Bool) : ℕ :=
  bits.foldl (fun acc b => 2 * acc + (if b then 1 else 0)) 0

/-- `binaryToHex` (duplicateDetection.ts lines 99-107): consume the binary
string four bits at a time, emitting `parseInt(chunk, 2).toString(16)` for
each chunk (`Nat.digitChar` agrees with JS `toString(16)` on `0..15`). -/
def binaryToHex : List Bool → List Char
  | [] => []
  | b :: rest =>
    Nat.digitChar (bitsToNat (List.take 4 (b :: rest))) :: binaryToHex (List.drop 4 (b :: rest))
  termination_by l => l.length
  decreasing_by simp [List.length_drop]; omega

/-- The lowercase hexadecimal digits `0..9a..f`, the alphabet of
`toString(16)` (`Nat.digitChar` produces exactly these on `0..15`). -/
def hexAlphabet : List Char := (List.range 16).map Nat.digitChar

/-! ## duplicateDetection.ts: Hamming distance and similarity -/

/-- `parseInt(c, 16)` for a single character.  On the hexadecimal digits this
is the digit's value (JS also accepts uppercase); the claims under
verification only ever apply it to hexadecimal characters, so other
characters are mapped to 0 here. -/
def hexCharVal (c : Char) : ℕ :=
  if '0' ≤ c ∧ c ≤ '9' then c.toNat - '0'.toNat
  else if 'a' ≤ c ∧ c ≤ 'f' then c.toNat - 'a'.toNat + 10
  else if 'A' ≤ c ∧ c ≤ 'F' then c.toNat - 'A'.toNat + 10
  else 0

/-- `decimal.toString(2).padStart(4, '0')` for `decimal ≤ 15`: the four bits
of the value, most significant first. -/
def nibbleBits (v : ℕ) : List Bool :=
  [decide (v / 8 % 2 = 1), decide (v / 4 % 2 = 1), decide (v / 2 % 2 = 1), decide (v % 2 = 1)]

/-- `hexToBinary` (duplicateDetection.ts lines 112-119): each hex character
contributes its four bits, concatenated in order. -/
def hexToBinary (hex : List Char) : List Bool :=
  hex.flatMap fun c => nibbleBits (hexCharVal c)

/-- `calculateHammingDistance` (duplicateDetection.ts lines 124-140).
`none` models the JS `Infinity` returned on a length mismatch; otherwise the
result counts positions where the two binary expansions differ. -/
def calculateHammingDistance (hash1 hash2 : List Char) : Option ℕ :=
  if hash1.length ≠ hash2.length then none
  else some (((hexToBinary hash1).zip (hexToBinary hash2)).countP fun p => decide (p.1 ≠ p.2))

/-- JS `Math.max` on two rationals (kept as an `if` so it evaluates by
kernel reduction). -/
def mathMax (a b : ℚ) : ℚ := if a ≤ b then b else a

/-- `calculateSimilarity` (duplicateDetection.ts lines 145-152):
`Math.max(0, (64 - distance) / 64 * 100)`, and 0 when the distance is
`Infinity`. -/
def calculateSimilarity (hash1 hash2 : List Char) : ℚ :=
  match calculateHammingDistance hash1 hash2 with
  | none => 0
  | some distance => mathMax 0 ((64 - (distance : ℚ)) / 64 * 100)

/-! ## duplicateDetection.ts: findDuplicateGroups -/

/-- `ImageHash` (duplicateDetection.ts lines 4-8). -/
structure ImageHash where
  hash : List Char
  width : ℕ
  height : ℕ
  deriving DecidableEq

/-- `DuplicateGroup` (duplicateDetection.ts lines 10-14). -/
structure DuplicateGroup where
  id : String
  photos : List String
  similarity : ℚ
  deriving DecidableEq

/-- The inner loop of `findDuplicateGroups` (lines 177-191): walk the ids
after the seed in map order; skip already-processed ids; an id whose
similarity against the seed hash meets the threshold is appended to
`similarPhotos` and added to `processed`.  Returns the collected
`similarPhotos` tail and the updated `processed` set (modelled as a list
with membership semantics). -/
def scanSimilar (hash1 : List Char) (t : ℚ) :
    List (String × ImageHash) → List String → List String × List String
  | [], processed => ([], processed)
  | (photoId2, hash2) :: rest, processed =>
    if photoId2 ∈ processed then scanSimilar hash1 t rest processed
    else if t ≤ calculateSimilarity hash1 hash2.hash then
      let r := scanSimilar hash1 t rest (photoId2 :: processed)
      (photoId2 :: r.1, r.2)
    else scanSimilar hash1 t rest processed

/-- The outer loop of `findDuplicateGroups` (lines 166-206).  `groupCount` is
`groups.length` at the start of the iteration; the group id is
`"dup_group_" ++ toString (groupCount+1)`.  A group is pushed only when
`similarPhotos` has more than one member, in which case all its members are
(re-)marked processed; otherwise only the seed is marked processed.
(The source's `if (!hash1) continue` guards are vacuous for a JS `Map`
populated via `hashes.set` and are omitted.) -/
def findGroupsLoop (t : ℚ) :
    List (String × ImageHash) → List String → ℕ → List DuplicateGroup
  | [], _, _ => []
  | (photoId1, hash1) :: rest, processed, groupCount =>
    if photoId1 ∈ processed then findGroupsLoop t rest processed groupCount
    else
      let r := scanSimilar hash1.hash t rest processed
      let similarPhotos := photoId1 :: r.1
      if 1 < similarPhotos.length then
        { id := "dup_group_" ++ toString (groupCount + 1),
          photos := similarPhotos, similarity := t }
          :: findGroupsLoop t rest (r.2 ++ similarPhotos) (groupCount + 1)
      else findGroupsLoop t rest (photoId1 :: r.2) groupCount

/-- `findDuplicateGroups` (duplicateDetection.ts lines 157-209), with the
`Map` argument modelled as its insertion-ordered entry list. -/
def findDuplicateGroups (imageHashes : List (String × ImageHash)) (t : ℚ) :
    List DuplicateGroup :=
  findGroupsLoop t imageHashes [] 0

example :
    findDuplicateGroups
      [("x", ⟨['0','0','0','0','0','0','0','0','0','0','0','0','0','0','0','0'], 8, 8⟩),
       ("y", ⟨['0','0','0','0','0','0','0','0','0','0','0','0','0','0','0','0'], 8, 8⟩)]
      85 =
      [{ id := "dup_group_1", photos := ["x", "y"], similarity := 85 }] := by
  norm_num +decide [findDuplicateGroups, findGroupsLoop, scanSimilar, calculateSimilarity,
    calculateHammingDistance, hexToBinary, nibbleBits, hexCharVal, mathMax]

/-! ## Supporting lemmas: dHash bits and hex encoding -/

/-- The nested row/column loops of `calculateImageHash` produce the same bits
as a single row-major map over bit positions `0..63`. -/
theorem dHashBits_eq_map (pixels : ℕ → ℕ × ℕ × ℕ) :
    dHashBits pixels = (List.range 64).map fun i =>
      decide (grayPixel pixels (i / 8 * 9 + i % 8) < grayPixel pixels (i / 8 * 9 + i % 8 + 1)) :=
  rfl

/-- `binaryToHex` emits one character per four bits, rounding up. -/
theorem binaryToHex_length : ∀ l : List Bool, (binaryToHex l).length = (l.length + 3) / 4
  | [] => by simp [binaryToHex]
  | b :: rest => by
    rw [binaryToHex]
    have ih := binaryToHex_length (List.drop 4 (b :: rest))
    simp only [List.length_cons, List.length_drop] at ih ⊢
    omega
  termination_by l => l.length
  decreasing_by simp [List.length_drop]; omega

/-- `parseInt(chunk, 2)` of at most four bits is below 16. -/
theorem bitsToNat_lt (bits : List Bool) (acc : ℕ) :
    bits.foldl (fun acc b => 2 * acc + (if b then 1 else 0)) acc < (acc + 1) * 2 ^ bits.length := by
  induction bits generalizing acc with
  | nil => simp
  | cons b rest ih =>
    simp only [List.foldl_cons, List.length_cons]
    calc rest.foldl (fun acc b => 2 * acc + (if b then 1 else 0)) (2 * acc + (if b then 1 else 0))
        < (2 * acc + (if b then 1 else 0) + 1) * 2 ^ rest.length := ih _
      _ ≤ (acc + 1) * 2 ^ (rest.length + 1) := by
          have hb : (if b then 1 else 0) ≤ 1 := by cases b <;> simp
          have : 2 * acc + (if b then 1 else 0) + 1 ≤ 2 * (acc + 1) := by omega
          calc (2 * acc + (if b then 1 else 0) + 1) * 2 ^ rest.length
              ≤ 2 * (acc + 1) * 2 ^ rest.length := Nat.mul_le_mul_right _ this
            _ = (acc + 1) * 2 ^ (rest.length + 1) := by ring

/-- `Nat.digitChar` sends `0..15` into the lowercase hex alphabet, matching
JS `toString(16)` for a single digit. -/
theorem digitChar_mem_hexAlphabet (n : ℕ) (h : n < 16) : Nat.digitChar n ∈ hexAlphabet := by
  unfold hexAlphabet
  exact List.mem_map_of_mem _ (List.mem_range.mpr h)

/-- Every character emitted by `binaryToHex` is a lowercase hex digit. -/
theorem binaryToHex_mem : ∀ l : List Bool, ∀ c ∈ binaryToHex l, c ∈ hexAlphabet
  | [] => by simp [binaryToHex]
  | b :: rest => by
    rw [binaryToHex]
    intro c hc
    rcases List.mem_cons.1 hc with h | h
    · subst h
      apply digitChar_mem_hexAlphabet
      have h4 : (List.take 4 (b :: rest)).length ≤ 4 := by
        simp [List.length_take]
      calc bitsToNat (List.take 4 (b :: rest))
          < (0 + 1) * 2 ^ (List.take 4 (b :: rest)).length := bitsToNat_lt _ 0
        _ ≤ 16 := by
            have h2 := Nat.pow_le_pow_right (by norm_num : 1 ≤ 2) h4
            omega
    · exact binaryToHex_mem (List.drop 4 (b :: rest)) c h
  termination_by l => l.length
  decreasing_by simp [List.length_drop]; omega

/-! ## Claim C3: dHash bit layout and hex encoding -/

/-- C3: for every decoded 9-by-8 grid of RGB samples, bit `(row, col)` of the
fingerprint (position `8 * row + col` of the row-major bit string) is set
exactly when the rounded luminance at column `col` of that row is strictly
less than the rounded luminance at column `col + 1` of the same row, and the
bit string is encoded as exactly 16 hexadecimal characters. -/
theorem calculateImageHash_dHash_spec (pixels : ℕ → ℕ × ℕ × ℕ)
    (row col : ℕ) (hrow : row < 8) (hcol : col < 8) :
    (dHashBits pixels)[8 * row + col]? =
      some (decide (grayPixel pixels (row * 9 + col) < grayPixel pixels (row * 9 + col + 1)))
    ∧ (dHashBits pixels).length = 64
    ∧ (binaryToHex (dHashBits pixels)).length = 16
    ∧ ∀ c ∈ binaryToHex (dHashBits pixels), c ∈ hexAlphabet := by
  have hlen : (dHashBits pixels).length = 64 := rfl
  refine ⟨?_, hlen, ?_, binaryToHex_mem _⟩
  · have hi : 8 * row + col < 64 := by omega
    rw [dHashBits_eq_map, List.getElem?_map, List.getElem?_range hi]
    have h8 : (8 * row + col) / 8 * 9 + (8 * row + col) % 8 = row * 9 + col := by omega
    simp [h8]
  · rw [binaryToHex_length, hlen]

/-- Witness for C3 at a concrete pixel grid and bit position. -/
theorem calculateImageHash_dHash_spec_witness :
    ((1:ℕ) < 8 ∧ (2:ℕ) < 8) ∧
      ((dHashBits (fun i => (i, i, i)))[8 * 1 + 2]? =
        some (decide (grayPixel (fun i => (i, i, i)) (1 * 9 + 2) <
          grayPixel (fun i => (i, i, i)) (1 * 9 + 2 + 1)))
      ∧ (dHashBits (fun i => (i, i, i))).length = 64
      ∧ (binaryToHex (dHashBits (fun i => (i, i, i)))).length = 16
      ∧ ∀ c ∈ binaryToHex (dHashBits (fun i => (i, i, i))), c ∈ hexAlphabet) :=
  ⟨⟨by decide, by decide⟩,
    calculateImageHash_dHash_spec (fun i => (i, i, i)) 1 2 (by decide) (by decide)⟩

/-! ## Supporting lemmas: Hamming distance and similarity -/

/-- Each hex character contributes exactly four bits. -/
theorem hexToBinary_length (h : List Char) : (hexToBinary h).length = 4 * h.length := by
  induction h with
  | nil => rfl
  | cons c rest ih =>
    unfold hexToBinary at ih ⊢
    rw [List.flatMap_cons, List.length_append, ih]
    have h4 : (nibbleBits (hexCharVal c)).length = 4 := rfl
    rw [h4, List.length_cons]
    ring

/-- The mismatch count of zipped lists is symmetric. -/
theorem zip_mismatch_symm : ∀ (b1 b2 : List Bool),
    ((b1.zip b2).countP fun p => decide (p.1 ≠ p.2)) =
      ((b2.zip b1).countP fun p => decide (p.1 ≠ p.2))
  | [], b2 => by cases b2 <;> simp
  | b :: r1, [] => by simp
  | b :: r1, c :: r2 => by
    simp only [List.zip_cons_cons, List.countP_cons, zip_mismatch_symm r1 r2]
    have : (decide (b ≠ c)) = (decide (c ≠ b)) := by
      cases b <;> cases c <;> decide
    rw [this]

/-- A zero mismatch count over equal-length lists forces equality. -/
theorem zip_mismatch_zero_iff : ∀ (b1 b2 : List Bool), b1.length = b2.length →
    (((b1.zip b2).countP fun p => decide (p.1 ≠ p.2)) = 0 ↔ b1 = b2)
  | [], [] => by simp
  | [], c :: r2 => by simp
  | b :: r1, [] => by simp
  | b :: r1, c :: r2 => by
    intro hlen
    simp only [List.length_cons, Nat.succ_inj] at hlen
    simp only [List.zip_cons_cons, List.countP_cons, List.cons.injEq]
    rw [← zip_mismatch_zero_iff r1 r2 hlen]
    cases b <;> cases c <;> simp

/-- `parseInt(c, 16)` is below 16 on the hex alphabet. -/
theorem hexCharVal_lt (c : Char) (hc : c ∈ hexAlphabet) : hexCharVal c < 16 := by
  obtain ⟨v, hv, rfl⟩ := List.mem_map.1 hc
  rw [List.mem_range] at hv
  interval_cases v <;> decide

/-- `Nat.digitChar` inverts `hexCharVal` on the hex alphabet. -/
theorem digitChar_hexCharVal (c : Char) (hc : c ∈ hexAlphabet) :
    Nat.digitChar (hexCharVal c) = c := by
  obtain ⟨v, hv, rfl⟩ := List.mem_map.1 hc
  rw [List.mem_range] at hv
  interval_cases v <;> decide

/-- The four-bit expansion is injective below 16. -/
theorem nibbleBits_injOn : ∀ v < 16, ∀ w < 16, nibbleBits v = nibbleBits w → v = w := by
  decide

/-- `hexToBinary` is injective on equal-length strings over the hex
alphabet. -/
theorem hexToBinary_inj : ∀ (h1 h2 : List Char),
    (∀ c ∈ h1, c ∈ hexAlphabet) → (∀ c ∈ h2, c ∈ hexAlphabet) → h1.length = h2.length →
    hexToBinary h1 = hexToBinary h2 → h1 = h2
  | [], [], _, _, _, _ => rfl
  | [], c :: r2, _, _, hlen, _ => by simp at hlen
  | c :: r1, [], _, _, hlen, _ => by simp at hlen
  | c1 :: r1, c2 :: r2, H1, H2, hlen, heq => by
    simp only [List.length_cons, Nat.succ_inj] at hlen
    simp only [hexToBinary, List.flatMap_cons] at heq
    have hnib : (nibbleBits (hexCharVal c1)).length = (nibbleBits (hexCharVal c2)).length := by
      simp [nibbleBits]
    obtain ⟨hhead, htail⟩ := List.append_inj heq hnib
    have hc1 : c1 ∈ hexAlphabet := H1 c1 (by simp)
    have hc2 : c2 ∈ hexAlphabet := H2 c2 (by simp)
    have hv : hexCharVal c1 = hexCharVal c2 :=
      nibbleBits_injOn _ (hexCharVal_lt c1 hc1) _ (hexCharVal_lt c2 hc2) hhead
    have hc : c1 = c2 := by
      rw [← digitChar_hexCharVal c1 hc1, ← digitChar_hexCharVal c2 hc2, hv]
    have hr : r1 = r2 :=
      hexToBinary_inj r1 r2 (fun c hc => H1 c (by simp [hc])) (fun c hc => H2 c (by simp [hc]))
        hlen htail
    rw [hc, hr]

/-! ## Claim C4: similarity formula, distance bounds, symmetry, strict monotonicity -/

/-- A 64-bit fingerprint: 16 characters over the hex alphabet, as produced by
`binaryToHex` on the 64 dHash bits. -/
def isHex16 (h : List Char) : Prop := h.length = 16 ∧ ∀ c ∈ h, c ∈ hexAlphabet

instance (h : List Char) : Decidable (isHex16 h) := by
  unfold isHex16
  infer_instance

/-- The Hamming distance of two 16-hex-character fingerprints, as a plain
count. -/
theorem hammingDistance_eq (h1 h2 : List Char) (H1 : isHex16 h1) (H2 : isHex16 h2) :
    calculateHammingDistance h1 h2 =
      some (((hexToBinary h1).zip (hexToBinary h2)).countP fun p => decide (p.1 ≠ p.2)) := by
  unfold calculateHammingDistance
  rw [if_neg]
  simp [H1.1, H2.1]

/-- Unfolding `calculateSimilarity` when the distance is finite. -/
theorem calculateSimilarity_of_some (h1 h2 : List Char) (d : ℕ)
    (h : calculateHammingDistance h1 h2 = some d) :
    calculateSimilarity h1 h2 = mathMax 0 ((64 - (d : ℚ)) / 64 * 100) := by
  unfold calculateSimilarity
  rw [h]

/-- Unfolding `calculateSimilarity` when the distance is `Infinity`. -/
theorem calculateSimilarity_of_none (h1 h2 : List Char)
    (h : calculateHammingDistance h1 h2 = none) : calculateSimilarity h1 h2 = 0 := by
  unfold calculateSimilarity
  rw [h]

/-- C4: on 16-hex-character fingerprints, `calculateSimilarity` is exactly
`100 * (64 - d) / 64` for the Hamming distance `d`; the distance satisfies
`0 ≤ d ≤ 64`, is symmetric, and is zero exactly when the fingerprints are
equal; and similarity strictly decreases as the distance increases. -/
theorem calculateSimilarity_spec (h1 h2 : List Char) (H1 : isHex16 h1) (H2 : isHex16 h2) :
    ∃ d : ℕ, calculateHammingDistance h1 h2 = some d ∧ d ≤ 64 ∧
      calculateHammingDistance h2 h1 = some d ∧
      (d = 0 ↔ h1 = h2) ∧
      calculateSimilarity h1 h2 = 100 * (64 - (d : ℚ)) / 64 ∧
      (∀ h3 h4 : List Char, isHex16 h3 → isHex16 h4 → ∀ e : ℕ,
        calculateHammingDistance h3 h4 = some e → d < e →
        calculateSimilarity h3 h4 < calculateSimilarity h1 h2) := by
  have len1 : (hexToBinary h1).length = 64 := by rw [hexToBinary_length, H1.1]
  have len2 : (hexToBinary h2).length = 64 := by rw [hexToBinary_length, H2.1]
  refine ⟨((hexToBinary h1).zip (hexToBinary h2)).countP fun p => decide (p.1 ≠ p.2),
    hammingDistance_eq h1 h2 H1 H2, ?_, ?_, ?_, ?_, ?_⟩
  case refine_1 =>
    calc ((hexToBinary h1).zip (hexToBinary h2)).countP (fun p => decide (p.1 ≠ p.2))
        ≤ ((hexToBinary h1).zip (hexToBinary h2)).length := List.countP_le_length _
      _ ≤ 64 := by rw [List.length_zip, len1, len2]; omega
  case refine_2 => rw [hammingDistance_eq h2 h1 H2 H1, zip_mismatch_symm]
  case refine_3 =>
    rw [zip_mismatch_zero_iff _ _ (len1.trans len2.symm)]
    constructor
    · exact fun hb => hexToBinary_inj h1 h2 H1.2 H2.2 (H1.1.trans H2.1.symm) hb
    · exact fun hh => by rw [hh]
  case refine_4 =>
    have hd : ((hexToBinary h1).zip (hexToBinary h2)).countP (fun p => decide (p.1 ≠ p.2)) ≤ 64 :=
      le_trans (List.countP_le_length _) (by rw [List.length_zip, len1, len2]; omega)
    rw [calculateSimilarity_of_some h1 h2 _ (hammingDistance_eq h1 h2 H1 H2)]
    unfold mathMax
    rw [if_pos]
    · ring
    · have hdq : ((((hexToBinary h1).zip (hexToBinary h2)).countP
          (fun p => decide (p.1 ≠ p.2)) : ℚ)) ≤ 64 := by exact_mod_cast hd
      nlinarith
  case refine_5 =>
    intro h3 h4 H3 H4 e ham34 hlt
    have he : e ≤ 64 := by
      have hh := hammingDistance_eq h3 h4 H3 H4
      rw [hh] at ham34
      have hcount : e = ((hexToBinary h3).zip (hexToBinary h4)).countP
          fun p => decide (p.1 ≠ p.2) := by
        exact (Option.some.injEq _ _ ▸ ham34.symm)
      have len3 : (hexToBinary h3).length = 64 := by rw [hexToBinary_length, H3.1]
      have len4 : (hexToBinary h4).length = 64 := by rw [hexToBinary_length, H4.1]
      rw [hcount]
      calc ((hexToBinary h3).zip (hexToBinary h4)).countP (fun p => decide (p.1 ≠ p.2))
          ≤ ((hexToBinary h3).zip (hexToBinary h4)).length := List.countP_le_length _
        _ ≤ 64 := by rw [List.length_zip, len3, len4]; omega
    rw [calculateSimilarity_of_some h1 h2 _ (hammingDistance_eq h1 h2 H1 H2),
      calculateSimilarity_of_some h3 h4 e ham34]
    unfold mathMax
    have heq : (((((hexToBinary h1).zip (hexToBinary h2)).countP
        (fun p => decide (p.1 ≠ p.2))) : ℚ)) < (e : ℚ) := by exact_mod_cast hlt
    have he64 : ((e : ℚ)) ≤ 64 := by exact_mod_cast he
    rw [if_pos (by linarith), if_pos (by linarith)]
    linarith

/-- Witness for C4 at two concrete fingerprints at Hamming distance 1. -/
theorem calculateSimilarity_spec_witness :
    isHex16 ['0','0','0','0','0','0','0','0','0','0','0','0','0','0','0','0'] ∧
    isHex16 ['0','0','0','0','0','0','0','0','0','0','0','0','0','0','0','1'] ∧
    ∃ d : ℕ, calculateHammingDistance
        ['0','0','0','0','0','0','0','0','0','0','0','0','0','0','0','0']
        ['0','0','0','0','0','0','0','0','0','0','0','0','0','0','0','1'] = some d ∧ d ≤ 64 ∧
      calculateHammingDistance
        ['0','0','0','0','0','0','0','0','0','0','0','0','0','0','0','1']
        ['0','0','0','0','0','0','0','0','0','0','0','0','0','0','0','0'] = some d ∧
      (d = 0 ↔ ['0','0','0','0','0','0','0','0','0','0','0','0','0','0','0','0'] =
        ['0','0','0','0','0','0','0','0','0','0','0','0','0','0','0','1']) ∧
      calculateSimilarity
        ['0','0','0','0','0','0','0','0','0','0','0','0','0','0','0','0']
        ['0','0','0','0','0','0','0','0','0','0','0','0','0','0','0','1'] =
        100 * (64 - (d : ℚ)) / 64 ∧
      (∀ h3 h4 : List Char, isHex16 h3 → isHex16 h4 → ∀ e : ℕ,
        calculateHammingDistance h3 h4 = some e → d < e →
        calculateSimilarity h3 h4 <
          calculateSimilarity
            ['0','0','0','0','0','0','0','0','0','0','0','0','0','0','0','0']
            ['0','0','0','0','0','0','0','0','0','0','0','0','0','0','0','1']) :=
  ⟨by decide, by decide,
    calculateSimilarity_spec _ _ (by decide) (by decide)⟩

/-! ## Supporting lemmas: the greedy clusterer -/

/-- Modelled from the spec wording of the clustering policy (spec section 4.2):
iterate candidate photo ids in insertion order; skip assigned ids; for a
not-yet-assigned seed, every *later* not-yet-assigned id whose similarity
against the seed meets or exceeds the threshold joins the group and is marked
assigned; a group is emitted with a new sequential group id exactly when it
has more than one member, and otherwise the lone seed is marked processed and
no group is emitted. -/
def clusterSpecLoop (t : ℚ) :
    List (String × ImageHash) → List String → ℕ → List DuplicateGroup
  | [], _, _ => []
  | (seed, seedHash) :: rest, assigned, groupCount =>
    if seed ∈ assigned then clusterSpecLoop t rest assigned groupCount
    else
      let members := (rest.filter fun q =>
        decide (q.1 ∉ assigned ∧ t ≤ calculateSimilarity seedHash.hash q.2.hash)).map Prod.fst
      if members.isEmpty then clusterSpecLoop t rest (seed :: assigned) groupCount
      else
        { id := "dup_group_" ++ toString (groupCount + 1),
          photos := seed :: members, similarity := t }
          :: clusterSpecLoop t rest (members ++ seed :: assigned) (groupCount + 1)

/-- The spec-level clusterer over a whole fingerprint map. -/
def clusterSpec (imageHashes : List (String × ImageHash)) (t : ℚ) : List DuplicateGroup :=
  clusterSpecLoop t imageHashes [] 0

/-- Membership in the `processed` list returned by the inner loop: exactly
the newly matched ids plus the previous `processed` ids. -/
theorem scanSimilar_snd_mem (hash1 : List Char) (t : ℚ) :
    ∀ (l : List (String × ImageHash)) (processed : List String) (x : String),
      x ∈ (scanSimilar hash1 t l processed).2 ↔
        x ∈ (scanSimilar hash1 t l processed).1 ∨ x ∈ processed := by
  intro l
  induction l with
  | nil => intro processed x; simp [scanSimilar]
  | cons p rest ih =>
    intro processed x
    obtain ⟨photoId2, hash2⟩ := p
    by_cases hmem : photoId2 ∈ processed
    · simp only [scanSimilar, if_pos hmem]
      exact ih processed x
    · by_cases hsim : t ≤ calculateSimilarity hash1 hash2.hash
      · simp only [scanSimilar, if_neg hmem, if_pos hsim, List.mem_cons]
        rw [ih (photoId2 :: processed) x]
        simp [List.mem_cons]
        tauto
      · simp only [scanSimilar, if_neg hmem, if_neg hsim]
        exact ih processed x

/-- Every id collected by the inner loop carries a hash in the suffix whose
similarity against the seed hash meets the threshold. -/
theorem scanSimilar_fst_spec (hash1 : List Char) (t : ℚ) :
    ∀ (l : List (String × ImageHash)) (processed : List String),
      ∀ p ∈ (scanSimilar hash1 t l processed).1,
        ∃ h2, (p, h2) ∈ l ∧ t ≤ calculateSimilarity hash1 h2.hash := by
  intro l
  induction l with
  | nil => intro processed p hp; simp [scanSimilar] at hp
  | cons q rest ih =>
    intro processed p hp
    obtain ⟨photoId2, hash2⟩ := q
    by_cases hmem : photoId2 ∈ processed
    · simp only [scanSimilar, if_pos hmem] at hp
      obtain ⟨h2, hin, hsim⟩ := ih processed p hp
      exact ⟨h2, List.mem_cons_of_mem _ hin, hsim⟩
    · by_cases hsim : t ≤ calculateSimilarity hash1 hash2.hash
      · simp only [scanSimilar, if_neg hmem, if_pos hsim, List.mem_cons] at hp
        rcases hp with rfl | hp
        · exact ⟨hash2, List.mem_cons_self _ _, hsim⟩
        · obtain ⟨h2, hin, hs⟩ := ih (photoId2 :: processed) p hp
          exact ⟨h2, List.mem_cons_of_mem _ hin, hs⟩
      · simp only [scanSimilar, if_neg hmem, if_neg hsim] at hp
        obtain ⟨h2, hin, hs⟩ := ih processed p hp
        exact ⟨h2, List.mem_cons_of_mem _ hin, hs⟩

/-- The inner loop only consults `processed` through membership: lists with
the same members produce the same `similarPhotos` and set-equal `processed`
outputs. -/
theorem scanSimilar_congr (hash1 : List Char) (t : ℚ) :
    ∀ (l : List (String × ImageHash)) (P Q : List String),
      (∀ x, x ∈ P ↔ x ∈ Q) →
      (scanSimilar hash1 t l P).1 = (scanSimilar hash1 t l Q).1 ∧
        ∀ x, x ∈ (scanSimilar hash1 t l P).2 ↔ x ∈ (scanSimilar hash1 t l Q).2 := by
  intro l
  induction l with
  | nil => intro P Q hPQ; exact ⟨rfl, hPQ⟩
  | cons q rest ih =>
    intro P Q hPQ
    obtain ⟨photoId2, hash2⟩ := q
    by_cases hmem : photoId2 ∈ P
    · have hmemQ : photoId2 ∈ Q := (hPQ photoId2).1 hmem
      simp only [scanSimilar, if_pos hmem, if_pos hmemQ]
      exact ih P Q hPQ
    · have hmemQ : photoId2 ∉ Q := fun h => hmem ((hPQ photoId2).2 h)
      by_cases hsim : t ≤ calculateSimilarity hash1 hash2.hash
      · simp only [scanSimilar, if_neg hmem, if_neg hmemQ, if_pos hsim]
        have hPQ2 : ∀ x, x ∈ photoId2 :: P ↔ x ∈ photoId2 :: Q := by
          intro x; simp [List.mem_cons, hPQ x]
        obtain ⟨h1, h2⟩ := ih (photoId2 :: P) (photoId2 :: Q) hPQ2
        exact ⟨by rw [h1], h2⟩
      · simp only [scanSimilar, if_neg hmem, if_neg hmemQ, if_neg hsim]
        exact ih P Q hPQ

/-- Filtering is unchanged by consing an id that is not a key of the list
onto the assigned set. -/
theorem filter_assigned_congr (hash1 : List Char) (t : ℚ) (a : String)
    (l : List (String × ImageHash)) (P : List String) (ha : a ∉ l.map Prod.fst) :
    (l.filter fun q => decide (q.1 ∉ a :: P ∧ t ≤ calculateSimilarity hash1 q.2.hash)) =
      (l.filter fun q => decide (q.1 ∉ P ∧ t ≤ calculateSimilarity hash1 q.2.hash)) := by
  apply List.filter_congr
  intro q hq
  have hne : q.1 ≠ a := by
    intro h
    exact ha (h ▸ List.mem_map_of_mem Prod.fst hq)
  simp only [decide_eq_decide, List.mem_cons]
  tauto

/-- Under pairwise-distinct keys, the inner loop collects exactly the later
ids that are unassigned and similar enough to the seed. -/
theorem scanSimilar_eq_filter (hash1 : List Char) (t : ℚ) :
    ∀ (l : List (String × ImageHash)) (P : List String),
      (l.map Prod.fst).Nodup →
      (scanSimilar hash1 t l P).1 =
        (l.filter fun q => decide (q.1 ∉ P ∧ t ≤ calculateSimilarity hash1 q.2.hash)).map
          Prod.fst := by
  intro l
  induction l with
  | nil => intro P _; simp [scanSimilar]
  | cons q rest ih =>
    intro P hnd
    obtain ⟨photoId2, hash2⟩ := q
    simp only [List.map_cons, List.nodup_cons] at hnd
    by_cases hmem : photoId2 ∈ P
    · have : ¬(photoId2 ∉ P ∧ t ≤ calculateSimilarity hash1 hash2.hash) := fun h => h.1 hmem
      simp only [scanSimilar, if_pos hmem, List.filter_cons, decide_eq_true_eq, if_neg this]
      exact ih P hnd.2
    · by_cases hsim : t ≤ calculateSimilarity hash1 hash2.hash
      · have hcond : (photoId2 ∉ P ∧ t ≤ calculateSimilarity hash1 hash2.hash) := ⟨hmem, hsim⟩
        simp only [scanSimilar, if_neg hmem, if_pos hsim, List.filter_cons,
          decide_eq_true_eq, if_pos hcond, List.map_cons]
        rw [ih (photoId2 :: P) hnd.2, filter_assigned_congr hash1 t photoId2 rest P hnd.1]
      · have : ¬(photoId2 ∉ P ∧ t ≤ calculateSimilarity hash1 hash2.hash) := fun h => hsim h.2
        simp only [scanSimilar, if_neg hmem, if_neg hsim, List.filter_cons,
          decide_eq_true_eq, if_neg this]
        exact ih P hnd.2

/-- The outer loop only consults `processed` through membership. -/
theorem findGroupsLoop_congr (t : ℚ) :
    ∀ (l : List (String × ImageHash)) (P Q : List String) (gc : ℕ),
      (∀ x, x ∈ P ↔ x ∈ Q) →
      findGroupsLoop t l P gc = findGroupsLoop t l Q gc := by
  intro l
  induction l with
  | nil => intro P Q gc _; rfl
  | cons q rest ih =>
    intro P Q gc hPQ
    obtain ⟨photoId1, hash1⟩ := q
    by_cases hmem : photoId1 ∈ P
    · have hmemQ : photoId1 ∈ Q := (hPQ photoId1).1 hmem
      simp only [findGroupsLoop, if_pos hmem, if_pos hmemQ]
      exact ih P Q gc hPQ
    · have hmemQ : photoId1 ∉ Q := fun h => hmem ((hPQ photoId1).2 h)
      obtain ⟨hfst, hsnd⟩ := scanSimilar_congr hash1.hash t rest P Q hPQ
      simp only [findGroupsLoop, if_neg hmem, if_neg hmemQ]
      rw [← hfst]
      by_cases hlen : 1 < (photoId1 :: (scanSimilar hash1.hash t rest P).1).length
      · simp only [if_pos hlen]
        have : ∀ x, x ∈ (scanSimilar hash1.hash t rest P).2 ++
            photoId1 :: (scanSimilar hash1.hash t rest P).1 ↔
            x ∈ (scanSimilar hash1.hash t rest Q).2 ++
            photoId1 :: (scanSimilar hash1.hash t rest P).1 := by
          intro x
          simp only [List.mem_append, List.mem_cons]
          rw [hsnd x]
        rw [ih _ _ (gc + 1) this]
      · simp only [if_neg hlen]
        have : ∀ x, x ∈ photoId1 :: (scanSimilar hash1.hash t rest P).2 ↔
            x ∈ photoId1 :: (scanSimilar hash1.hash t rest Q).2 := by
          intro x
          simp only [List.mem_cons]
          rw [hsnd x]
        exact ih _ _ gc this

/-- Under pairwise-distinct keys (a JS `Map` invariant), the source clusterer
coincides with the spec-worded clusterer. -/
theorem findGroupsLoop_eq_clusterSpecLoop (t : ℚ) :
    ∀ (l : List (String × ImageHash)) (P : List String) (gc : ℕ),
      (l.map Prod.fst).Nodup →
      findGroupsLoop t l P gc = clusterSpecLoop t l P gc := by
  intro l
  induction l with
  | nil => intro P gc _; rfl
  | cons q rest ih =>
    intro P gc hnd
    obtain ⟨photoId1, hash1⟩ := q
    simp only [List.map_cons, List.nodup_cons] at hnd
    by_cases hmem : photoId1 ∈ P
    · simp only [findGroupsLoop, clusterSpecLoop, if_pos hmem]
      exact ih P gc hnd.2
    · have hfst := scanSimilar_eq_filter hash1.hash t rest P hnd.2
      simp only [findGroupsLoop, clusterSpecLoop, if_neg hmem]
      by_cases hempty : ((rest.filter fun q =>
          decide (q.1 ∉ P ∧ t ≤ calculateSimilarity hash1.hash q.2.hash)).map Prod.fst).isEmpty
      · have hnil : (scanSimilar hash1.hash t rest P).1 = [] := by
          rw [hfst, List.isEmpty_iff.1 hempty]
        have hlen : ¬(1 < (photoId1 :: (scanSimilar hash1.hash t rest P).1).length) := by
          rw [hnil]; simp
        rw [if_neg hlen, if_pos hempty]
        have hiff : ∀ x, x ∈ photoId1 :: (scanSimilar hash1.hash t rest P).2 ↔
            x ∈ photoId1 :: P := by
          intro x
          simp only [List.mem_cons]
          rw [scanSimilar_snd_mem, hnil]
          simp
        rw [findGroupsLoop_congr t rest _ _ gc hiff]
        exact ih (photoId1 :: P) gc hnd.2
      · have hne : (scanSimilar hash1.hash t rest P).1 ≠ [] := by
          rw [hfst]
          intro h
          rw [h] at hempty
          exact hempty rfl
        have hlen : 1 < (photoId1 :: (scanSimilar hash1.hash t rest P).1).length := by
          cases hcase : (scanSimilar hash1.hash t rest P).1 with
          | nil => exact absurd hcase hne
          | cons a as => simp
        rw [if_pos hlen, if_neg (fun h => hempty h)]
        congr 1
        · rw [hfst]
        · have hiff : ∀ x, x ∈ (scanSimilar hash1.hash t rest P).2 ++
              photoId1 :: (scanSimilar hash1.hash t rest P).1 ↔
              x ∈ ((rest.filter fun q =>
                decide (q.1 ∉ P ∧ t ≤ calculateSimilarity hash1.hash q.2.hash)).map Prod.fst)
                ++ photoId1 :: P := by
            intro x
            simp only [List.mem_append, List.mem_cons]
            rw [scanSimilar_snd_mem, hfst]
            tauto
          rw [findGroupsLoop_congr t rest _ _ (gc + 1) hiff]
          exact ih _ (gc + 1) hnd.2

/-- Every emitted group has at least two members. -/
theorem findGroupsLoop_size (t : ℚ) :
    ∀ (l : List (String × ImageHash)) (P : List String) (gc : ℕ),
      ∀ g ∈ findGroupsLoop t l P gc, 2 ≤ g.photos.length := by
  intro l
  induction l with
  | nil => intro P gc g hg; simp [findGroupsLoop] at hg
  | cons q rest ih =>
    intro P gc g hg
    obtain ⟨photoId1, hash1⟩ := q
    by_cases hmem : photoId1 ∈ P
    · simp only [findGroupsLoop, if_pos hmem] at hg
      exact ih P gc g hg
    · simp only [findGroupsLoop, if_neg hmem] at hg
      by_cases hlen : 1 < (photoId1 :: (scanSimilar hash1.hash t rest P).1).length
      · rw [if_pos hlen] at hg
        rcases List.mem_cons.1 hg with rfl | hg
        · simpa using hlen
        · exact ih _ _ g hg
      · rw [if_neg hlen] at hg
        exact ih _ _ g hg

/-- Group ids are `"dup_group_"` followed by sequential counters starting
just above the incoming group count. -/
theorem findGroupsLoop_ids (t : ℚ) :
    ∀ (l : List (String × ImageHash)) (P : List String) (gc : ℕ),
      (findGroupsLoop t l P gc).map DuplicateGroup.id =
        (List.range (findGroupsLoop t l P gc).length).map
          (fun k => "dup_group_" ++ toString (gc + k + 1)) := by
  intro l
  induction l with
  | nil => intro P gc; rfl
  | cons q rest ih =>
    intro P gc
    obtain ⟨photoId1, hash1⟩ := q
    by_cases hmem : photoId1 ∈ P
    · simp only [findGroupsLoop, if_pos hmem]
      exact ih P gc
    · simp only [findGroupsLoop, if_neg hmem]
      by_cases hlen : 1 < (photoId1 :: (scanSimilar hash1.hash t rest P).1).length
      · rw [if_pos hlen]
        simp only [List.map_cons, List.length_cons, List.range_succ_eq_map, List.map_map]
        refine List.cons_eq_cons.mpr ⟨by rw [Nat.add_zero], ?_⟩
        rw [ih _ (gc + 1)]
        apply List.map_congr_left
        intro k hk
        simp only [Function.comp_apply]
        congr 2
        omega
      · rw [if_neg hlen]
        exact ih _ gc

/-- Every emitted group consists of a seed holding a hash in the map followed
by at least one member, each of which holds a hash in the map whose
similarity against the *seed* hash meets the threshold. -/
theorem findGroupsLoop_seed (t : ℚ) :
    ∀ (l : List (String × ImageHash)) (P : List String) (gc : ℕ),
      ∀ g ∈ findGroupsLoop t l P gc,
        ∃ seed seedHash members, g.photos = seed :: members ∧ (seed, seedHash) ∈ l ∧
          members ≠ [] ∧
          ∀ p ∈ members, ∃ h2, (p, h2) ∈ l ∧ t ≤ calculateSimilarity seedHash.hash h2.hash := by
  intro l
  induction l with
  | nil => intro P gc g hg; simp [findGroupsLoop] at hg
  | cons q rest ih =>
    intro P gc g hg
    obtain ⟨photoId1, hash1⟩ := q
    by_cases hmem : photoId1 ∈ P
    · simp only [findGroupsLoop, if_pos hmem] at hg
      obtain ⟨s, sh, ms, h1, h2, h3, h4⟩ := ih P gc g hg
      exact ⟨s, sh, ms, h1, List.mem_cons_of_mem _ h2, h3,
        fun p hp => (h4 p hp).imp fun h2' ⟨hin, hs⟩ => ⟨List.mem_cons_of_mem _ hin, hs⟩⟩
    · simp only [findGroupsLoop, if_neg hmem] at hg
      by_cases hlen : 1 < (photoId1 :: (scanSimilar hash1.hash t rest P).1).length
      · rw [if_pos hlen] at hg
        rcases List.mem_cons.1 hg with rfl | hg
        · refine ⟨photoId1, hash1, (scanSimilar hash1.hash t rest P).1, rfl,
            List.mem_cons_self _ _, ?_, ?_⟩
          · intro h
            rw [h] at hlen
            simp at hlen
          · intro p hp
            obtain ⟨h2, hin, hs⟩ := scanSimilar_fst_spec hash1.hash t rest P p hp
            exact ⟨h2, List.mem_cons_of_mem _ hin, hs⟩
        · obtain ⟨s, sh, ms, h1, h2, h3, h4⟩ := ih _ _ g hg
          exact ⟨s, sh, ms, h1, List.mem_cons_of_mem _ h2, h3,
            fun p hp => (h4 p hp).imp fun h2' ⟨hin, hs⟩ => ⟨List.mem_cons_of_mem _ hin, hs⟩⟩
      · rw [if_neg hlen] at hg
        obtain ⟨s, sh, ms, h1, h2, h3, h4⟩ := ih _ _ g hg
        exact ⟨s, sh, ms, h1, List.mem_cons_of_mem _ h2, h3,
          fun p hp => (h4 p hp).imp fun h2' ⟨hin, hs⟩ => ⟨List.mem_cons_of_mem _ hin, hs⟩⟩

/-- With pairwise-distinct keys, a key determines its hash. -/
theorem nodup_key_unique :
    ∀ (m : List (String × ImageHash)), (m.map Prod.fst).Nodup →
      ∀ p h h2, (p, h) ∈ m → (p, h2) ∈ m → h = h2 := by
  intro m
  induction m with
  | nil => intro _ p h h2 hin; simp at hin
  | cons q rest ih =>
    intro hnd p h h2 hin1 hin2
    simp only [List.map_cons, List.nodup_cons] at hnd
    rcases List.mem_cons.1 hin1 with rfl | hin1
    · rcases List.mem_cons.1 hin2 with heq | hin2
      · have := heq.symm
        rw [Prod.mk.injEq] at this
        exact this.2
      · exact absurd (List.mem_map_of_mem Prod.fst hin2) (by simpa using hnd.1)
    · rcases List.mem_cons.1 hin2 with heq | hin2
      · exact absurd (List.mem_map_of_mem Prod.fst hin1)
          (by rw [← heq] at hnd; simpa using hnd.1)
      · exact ih hnd.2 p h h2 hin1 hin2

/-! ## Claim C1: the greedy seed-comparison clustering policy -/

/-- C1: over any fingerprint map (distinct keys, in insertion order) and any
threshold, the source clusterer agrees with the spec-worded policy
(`clusterSpec`): ids are scanned in insertion order, each unassigned seed is
compared against every later unassigned id, matches join the seed's group
and become assigned, and a group is emitted (with sequential ids
`dup_group_1`, `dup_group_2`, ...) exactly when it has more than one member.
Every emitted group is a seed followed by members whose similarity was
measured against the seed only. -/
theorem findDuplicateGroups_policy (m : List (String × ImageHash)) (t : ℚ)
    (hnd : (m.map Prod.fst).Nodup) :
    findDuplicateGroups m t = clusterSpec m t
    ∧ (∀ g ∈ findDuplicateGroups m t, 2 ≤ g.photos.length)
    ∧ (findDuplicateGroups m t).map DuplicateGroup.id =
        (List.range (findDuplicateGroups m t).length).map
          (fun k => "dup_group_" ++ toString (k + 1))
    ∧ ∀ g ∈ findDuplicateGroups m t,
        ∃ seed seedHash members, g.photos = seed :: members ∧ (seed, seedHash) ∈ m ∧
          members ≠ [] ∧
          ∀ p ∈ members, ∃ h2, (p, h2) ∈ m ∧ t ≤ calculateSimilarity seedHash.hash h2.hash := by
  refine ⟨findGroupsLoop_eq_clusterSpecLoop t m [] 0 hnd, findGroupsLoop_size t m [] 0, ?_,
    findGroupsLoop_seed t m [] 0⟩
  simpa using findGroupsLoop_ids t m [] 0

/-- Witness for C1 on a concrete three-photo map. -/
theorem findDuplicateGroups_policy_witness :
    (([("x", ImageHash.mk ['0','0','0','0','0','0','0','0','0','0','0','0','0','0','0','0'] 8 8),
       ("y", ImageHash.mk ['0','0','0','0','0','0','0','0','0','0','0','0','0','0','0','0'] 8 8),
       ("z", ImageHash.mk ['f','f','f','f','f','f','f','f','f','f','f','f','f','f','f','f'] 8 8)].map
        Prod.fst).Nodup) ∧
    (findDuplicateGroups
        [("x", ImageHash.mk ['0','0','0','0','0','0','0','0','0','0','0','0','0','0','0','0'] 8 8),
         ("y", ImageHash.mk ['0','0','0','0','0','0','0','0','0','0','0','0','0','0','0','0'] 8 8),
         ("z", ImageHash.mk ['f','f','f','f','f','f','f','f','f','f','f','f','f','f','f','f'] 8 8)]
        85 =
      clusterSpec
        [("x", ImageHash.mk ['0','0','0','0','0','0','0','0','0','0','0','0','0','0','0','0'] 8 8),
         ("y", ImageHash.mk ['0','0','0','0','0','0','0','0','0','0','0','0','0','0','0','0'] 8 8),
         ("z", ImageHash.mk ['f','f','f','f','f','f','f','f','f','f','f','f','f','f','f','f'] 8 8)]
        85
    ∧ (∀ g ∈ findDuplicateGroups
        [("x", ImageHash.mk ['0','0','0','0','0','0','0','0','0','0','0','0','0','0','0','0'] 8 8),
         ("y", ImageHash.mk ['0','0','0','0','0','0','0','0','0','0','0','0','0','0','0','0'] 8 8),
         ("z", ImageHash.mk ['f','f','f','f','f','f','f','f','f','f','f','f','f','f','f','f'] 8 8)]
        85, 2 ≤ g.photos.length)
    ∧ (findDuplicateGroups
        [("x", ImageHash.mk ['0','0','0','0','0','0','0','0','0','0','0','0','0','0','0','0'] 8 8),
         ("y", ImageHash.mk ['0','0','0','0','0','0','0','0','0','0','0','0','0','0','0','0'] 8 8),
         ("z", ImageHash.mk ['f','f','f','f','f','f','f','f','f','f','f','f','f','f','f','f'] 8 8)]
        85).map DuplicateGroup.id =
        (List.range (findDuplicateGroups
          [("x", ImageHash.mk ['0','0','0','0','0','0','0','0','0','0','0','0','0','0','0','0'] 8 8),
           ("y", ImageHash.mk ['0','0','0','0','0','0','0','0','0','0','0','0','0','0','0','0'] 8 8),
           ("z", ImageHash.mk ['f','f','f','f','f','f','f','f','f','f','f','f','f','f','f','f'] 8 8)]
          85).length).map (fun k => "dup_group_" ++ toString (k + 1))
    ∧ ∀ g ∈ findDuplicateGroups
        [("x", ImageHash.mk ['0','0','0','0','0','0','0','0','0','0','0','0','0','0','0','0'] 8 8),
         ("y", ImageHash.mk ['0','0','0','0','0','0','0','0','0','0','0','0','0','0','0','0'] 8 8),
         ("z", ImageHash.mk ['f','f','f','f','f','f','f','f','f','f','f','f','f','f','f','f'] 8 8)]
        85,
        ∃ seed seedHash members, g.photos = seed :: members ∧
          (seed, seedHash) ∈
            [("x", ImageHash.mk ['0','0','0','0','0','0','0','0','0','0','0','0','0','0','0','0'] 8 8),
             ("y", ImageHash.mk ['0','0','0','0','0','0','0','0','0','0','0','0','0','0','0','0'] 8 8),
             ("z", ImageHash.mk ['f','f','f','f','f','f','f','f','f','f','f','f','f','f','f','f'] 8 8)] ∧
          members ≠ [] ∧
          ∀ p ∈ members, ∃ h2, (p, h2) ∈
            [("x", ImageHash.mk ['0','0','0','0','0','0','0','0','0','0','0','0','0','0','0','0'] 8 8),
             ("y", ImageHash.mk ['0','0','0','0','0','0','0','0','0','0','0','0','0','0','0','0'] 8 8),
             ("z", ImageHash.mk ['f','f','f','f','f','f','f','f','f','f','f','f','f','f','f','f'] 8 8)] ∧
            85 ≤ calculateSimilarity seedHash.hash h2.hash) :=
  ⟨by decide, findDuplicateGroups_policy _ 85 (by decide)⟩

/-! ## Claim C10: length-mismatched hashes never cluster -/

/-- A positive similarity forces equal hash lengths. -/
theorem calculateSimilarity_pos_length (x y : List Char)
    (h : 0 < calculateSimilarity x y) : x.length = y.length := by
  by_contra hne
  have hnone : calculateHammingDistance x y = none := by
    unfold calculateHammingDistance
    rw [if_pos hne]
  rw [calculateSimilarity_of_none x y hnone] at h
  exact lt_irrefl 0 h

/-- C10: for hash strings of unequal length, `calculateHammingDistance`
returns `Infinity` (modelled `none`) rather than throwing or truncating,
`calculateSimilarity` returns 0, and for any positive threshold two photos
carrying such hashes are never placed in the same duplicate group. -/
theorem hamming_length_mismatch (ha hb : List Char) (hlen : ha.length ≠ hb.length) :
    calculateHammingDistance ha hb = none ∧ calculateSimilarity ha hb = 0 ∧
    ∀ (m : List (String × ImageHash)) (t : ℚ), (m.map Prod.fst).Nodup → 0 < t →
      ∀ ida idb hA hB, (ida, hA) ∈ m → (idb, hB) ∈ m → hA.hash = ha → hB.hash = hb →
      ∀ g ∈ findDuplicateGroups m t, ¬(ida ∈ g.photos ∧ idb ∈ g.photos) := by
  have hnone : calculateHammingDistance ha hb = none := by
    unfold calculateHammingDistance
    rw [if_pos hlen]
  have hzero : calculateSimilarity ha hb = 0 := calculateSimilarity_of_none ha hb hnone
  have hnoneBA : calculateHammingDistance hb ha = none := by
    unfold calculateHammingDistance
    rw [if_pos (Ne.symm hlen)]
  have hzeroBA : calculateSimilarity hb ha = 0 := calculateSimilarity_of_none hb ha hnoneBA
  refine ⟨hnone, hzero, ?_⟩
  intro m t hnd ht ida idb hA hB hinA hinB hhA hhB g hg ⟨hga, hgb⟩
  obtain ⟨seed, seedHash, members, hphotos, hseedin, hne, hmembers⟩ :=
    findGroupsLoop_seed t m [] 0 g hg
  rw [hphotos] at hga hgb
  rcases List.mem_cons.1 hga with rfl | hga <;> rcases List.mem_cons.1 hgb with heq | hgb
  · have : hA = hB := by
      rw [heq] at hinB
      exact nodup_key_unique m hnd _ _ _ hinA hinB
    rw [← hhA, ← hhB, this] at hlen
    exact hlen rfl
  · have hseedA : seedHash = hA := nodup_key_unique m hnd _ _ _ hseedin hinA
    obtain ⟨h2, hin2, hsim⟩ := hmembers idb hgb
    have : h2 = hB := nodup_key_unique m hnd _ _ _ hin2 hinB
    rw [hseedA, this, hhA, hhB, hzero] at hsim
    exact absurd (lt_of_lt_of_le ht hsim) (lt_irrefl 0)
  · have hseedB : seedHash = hB := by
      rw [heq] at hinB
      exact nodup_key_unique m hnd _ _ _ hseedin hinB
    obtain ⟨h2, hin2, hsim⟩ := hmembers ida hga
    have : h2 = hA := nodup_key_unique m hnd _ _ _ hin2 hinA
    rw [hseedB, this, hhA, hhB, hzeroBA] at hsim
    exact absurd (lt_of_lt_of_le ht hsim) (lt_irrefl 0)
  · obtain ⟨h2, hin2, hsim2⟩ := hmembers ida hga
    obtain ⟨h3, hin3, hsim3⟩ := hmembers idb hgb
    have e2 : h2 = hA := nodup_key_unique m hnd _ _ _ hin2 hinA
    have e3 : h3 = hB := nodup_key_unique m hnd _ _ _ hin3 hinB
    have p2 : 0 < calculateSimilarity seedHash.hash hA.hash := by
      rw [← e2]; exact lt_of_lt_of_le ht hsim2
    have p3 : 0 < calculateSimilarity seedHash.hash hB.hash := by
      rw [← e3]; exact lt_of_lt_of_le ht hsim3
    have l2 := calculateSimilarity_pos_length _ _ p2
    have l3 := calculateSimilarity_pos_length _ _ p3
    rw [hhA] at l2
    rw [hhB] at l3
    exact hlen (l2.symm.trans l3)

/-- Witness for C10: a 16-character dHash against a shorter fallback hash. -/
theorem hamming_length_mismatch_witness :
    (['0','0','0','0','0','0','0','0','0','0','0','0','0','0','0','0'] : List Char).length ≠
      (['f','f'] : List Char).length ∧
    (calculateHammingDistance
        ['0','0','0','0','0','0','0','0','0','0','0','0','0','0','0','0'] ['f','f'] = none ∧
      calculateSimilarity
        ['0','0','0','0','0','0','0','0','0','0','0','0','0','0','0','0'] ['f','f'] = 0 ∧
      ∀ (m : List (String × ImageHash)) (t : ℚ), (m.map Prod.fst).Nodup → 0 < t →
        ∀ ida idb hA hB, (ida, hA) ∈ m → (idb, hB) ∈ m →
        hA.hash = ['0','0','0','0','0','0','0','0','0','0','0','0','0','0','0','0'] →
        hB.hash = ['f','f'] →
        ∀ g ∈ findDuplicateGroups m t, ¬(ida ∈ g.photos ∧ idb ∈ g.photos)) :=
  ⟨by decide, hamming_length_mismatch _ _ (by decide)⟩

/-! ## Claim C2: threshold monotonicity of the group count -/

/-- A five-photo fingerprint map on which raising the threshold from 85 to 95
*increases* the group count: at 85 the first photo's seed group absorbs all
four others (each at Hamming distance 9, similarity 85.9375); at 95 the seed
matches nothing, and the remaining photos pair up into two exact-match
groups. -/
def thresholdCounterexampleMap : List (String × ImageHash) :=
  [("a", ImageHash.mk ['0','0','0','0','0','0','0','0','0','0','0','0','0','0','0','0'] 8 8),
   ("b", ImageHash.mk ['f','f','8','0','0','0','0','0','0','0','0','0','0','0','0','0'] 8 8),
   ("c", ImageHash.mk ['f','f','8','0','0','0','0','0','0','0','0','0','0','0','0','0'] 8 8),
   ("d", ImageHash.mk ['0','0','7','f','c','0','0','0','0','0','0','0','0','0','0','0'] 8 8),
   ("e", ImageHash.mk ['0','0','7','f','c','0','0','0','0','0','0','0','0','0','0','0'] 8 8)]

/-- Counterexample to C2: on `thresholdCounterexampleMap`, the clusterer
returns one group at threshold 85 but two groups at the higher threshold 95,
so raising the threshold increased the number of groups. -/
theorem findDuplicateGroups_threshold_not_monotone :
    (85 : ℚ) ≤ 95 ∧
    (findDuplicateGroups thresholdCounterexampleMap 85).length = 1 ∧
    (findDuplicateGroups thresholdCounterexampleMap 95).length = 2 ∧
    ¬((findDuplicateGroups thresholdCounterexampleMap 95).length ≤
        (findDuplicateGroups thresholdCounterexampleMap 85).length) := by
  refine ⟨by norm_num, ?_, ?_, ?_⟩ <;>
    norm_num +decide [thresholdCounterexampleMap, findDuplicateGroups, findGroupsLoop,
      scanSimilar, calculateSimilarity, calculateHammingDistance, hexToBinary, nibbleBits,
      hexCharVal, mathMax]

/-- All ordered pairs (earlier entry, later entry) of a fingerprint map: the
comparisons the clusterer can ever perform. -/
def laterPairs : List (String × ImageHash) → List ((String × ImageHash) × (String × ImageHash))
  | [] => []
  | x :: rest => (rest.map fun y => (x, y)) ++ laterPairs rest

/-- The number of ordered pairs of map entries whose similarity meets the
threshold. -/
def qualifyingPairCount (m : List (String × ImageHash)) (t : ℚ) : ℕ :=
  (laterPairs m).countP fun pr => decide (t ≤ calculateSimilarity pr.1.2.hash pr.2.2.hash)

/-- C2 (amended): raising the threshold never increases the set of
qualifying comparisons — any pair of hashes whose similarity meets the
higher threshold also meets the lower one, and the number of qualifying
ordered pairs of any fixed fingerprint map can only shrink.  (The number of
*groups* is not monotone: see the counterexample.) -/
theorem similarity_threshold_monotone (t1 t2 : ℚ) (hle : t1 ≤ t2) :
    (∀ h1 h2 : List Char, t2 ≤ calculateSimilarity h1 h2 → t1 ≤ calculateSimilarity h1 h2) ∧
    ∀ m : List (String × ImageHash), qualifyingPairCount m t2 ≤ qualifyingPairCount m t1 := by
  refine ⟨fun h1 h2 h => le_trans hle h, fun m => List.countP_mono_left ?_⟩
  intro pr _ hpr
  simp only [decide_eq_true_eq] at hpr ⊢
  exact le_trans hle hpr

/-- Witness for the amended C2 at thresholds 85 and 95. -/
theorem similarity_threshold_monotone_witness :
    (85 : ℚ) ≤ 95 ∧
    ((∀ h1 h2 : List Char, (95:ℚ) ≤ calculateSimilarity h1 h2 →
        (85:ℚ) ≤ calculateSimilarity h1 h2) ∧
      ∀ m : List (String × ImageHash), qualifyingPairCount m 95 ≤ qualifyingPairCount m 85) :=
  ⟨by norm_num, similarity_threshold_monotone 85 95 (by norm_num)⟩

/-! ## rawThumbnailExtractor.ts: findJpegMarker and findBestJpegPreview -/

/-- One position test of `findJpegMarker` (rawThumbnailExtractor.ts lines
175-186): the marker bytes all match the data bytes starting at `i`.  An
out-of-range access makes the comparison fail, exactly as the source's loop
bound `i <= data.length - marker.length` prevents. -/
def markerMatchesAt (data marker : List ℕ) (i : ℕ) : Bool :=
  (List.range marker.length).all fun j => decide (data[i + j]? = marker[j]?)

/-- `findJpegMarker` (rawThumbnailExtractor.ts lines 170-188): the first
index at or after `startOffset` where the marker bytes occur, `none`
modelling the JS `-1`. -/
def findJpegMarker (data marker : List ℕ) (startOffset : ℕ) : Option ℕ :=
  (List.range data.length).find? fun i =>
    decide (startOffset ≤ i) && decide (i + marker.length ≤ data.length) &&
      markerMatchesAt data marker i

/-- JS `data.slice(s, e)` on a byte array. -/
def jsSlice (data : List ℕ) (s e : ℕ) : List ℕ := (data.drop s).take (e - s)

/-- A successful marker search yields an index at or after the start offset
with the whole marker in range. -/
theorem findJpegMarker_some {data marker : List ℕ} {startOffset s : ℕ}
    (h : findJpegMarker data marker startOffset = some s) :
    startOffset ≤ s ∧ s + marker.length ≤ data.length := by
  have hp := List.find?_some h
  simp only [Bool.and_eq_true, decide_eq_true_eq] at hp
  exact ⟨hp.1.1, hp.1.2⟩

set_option linter.unusedVariables false in
/-- The scan loop of `findBestJpegPreview` (rawThumbnailExtractor.ts lines
142-157): find the next start-of-image marker, pair it with the nearest
following end-of-image marker, keep the span when it exceeds 1 KiB, and
resume searching two bytes past the start marker. -/
def collectPreviews (data : List ℕ) (searchStart : ℕ) : List (List ℕ) :=
  match h : findJpegMarker data [0xFF, 0xD8] searchStart with
  | none => []
  | some jpegStart =>
    let rest := collectPreviews data (jpegStart + 2)
    match findJpegMarker data [0xFF, 0xD9] (jpegStart + 2) with
    | none => rest
    | some jpegEnd =>
      let jpegData := jsSlice data jpegStart (jpegEnd + 2)
      if 1024 < jpegData.length then jpegData :: rest else rest
  termination_by data.length + 1 - searchStart
  decreasing_by
    have := findJpegMarker_some h
    simp only [List.length_cons, List.length_nil] at this
    omega

/-- `findBestJpegPreview` (rawThumbnailExtractor.ts lines 137-165): `none`
when no candidate exists, otherwise the `reduce` of the candidate list
keeping the longer span. -/
def findBestJpegPreview (data : List ℕ) : Option (List ℕ) :=
  match collectPreviews data 0 with
  | [] => none
  | p :: rest =>
    some (rest.foldl (fun largest current =>
      if largest.length < current.length then current else largest) p)

/-- The JS `reduce` pattern returns the first element or a list element, no
shorter than the seed or any element. -/
theorem foldl_largest (l : List (List ℕ)) (init : List ℕ) :
    (l.foldl (fun largest current =>
        if largest.length < current.length then current else largest) init = init ∨
      l.foldl (fun largest current =>
        if largest.length < current.length then current else largest) init ∈ l) ∧
    init.length ≤ (l.foldl (fun largest current =>
      if largest.length < current.length then current else largest) init).length ∧
    ∀ q ∈ l, q.length ≤ (l.foldl (fun largest current =>
      if largest.length < current.length then current else largest) init).length := by
  induction l generalizing init with
  | nil => exact ⟨Or.inl rfl, le_refl _, by simp⟩
  | cons x rest ih =>
    simp only [List.foldl_cons]
    by_cases hx : init.length < x.length
    · rw [if_pos hx]
      obtain ⟨h1, h2, h3⟩ := ih x
      refine ⟨?_, le_trans (le_of_lt hx) h2, ?_⟩
      · rcases h1 with h | h
        · exact Or.inr (by rw [h]; exact List.mem_cons_self _ _)
        · exact Or.inr (List.mem_cons_of_mem _ h)
      · intro q hq
        rcases List.mem_cons.1 hq with rfl | hq
        · exact h2
        · exact h3 q hq
    · rw [if_neg hx]
      obtain ⟨h1, h2, h3⟩ := ih init
      refine ⟨?_, h2, ?_⟩
      · rcases h1 with h | h
        · exact Or.inl h
        · exact Or.inr (List.mem_cons_of_mem _ h)
      · intro q hq
        rcases List.mem_cons.1 hq with rfl | hq
        · exact le_trans (le_of_not_lt hx) h2
        · exact h3 q hq

/-- Every candidate span kept by the scan loop exceeds 1 KiB. -/
theorem collectPreviews_length (data : List ℕ) (searchStart : ℕ) :
    ∀ q ∈ collectPreviews data searchStart, 1024 < q.length := by
  rw [collectPreviews]
  split
  · simp
  · rename_i jpegStart hstart
    have hb := findJpegMarker_some hstart
    simp only [List.length_cons, List.length_nil] at hb
    have ih := collectPreviews_length data (jpegStart + 2)
    split
    · exact ih
    · dsimp only
      split
      · intro q hq
        rcases List.mem_cons.1 hq with rfl | hq
        · assumption
        · exact ih q hq
      · exact ih
  termination_by data.length + 1 - searchStart
  decreasing_by omega

/-- `find?` over `range'` locates the first index satisfying the predicate. -/
theorem find?_range'_eq_some (p : ℕ → Bool) :
    ∀ (n s j : ℕ), s ≤ j → j < s + n → p j = true →
      (∀ i, s ≤ i → i < j → p i = false) → (List.range' s n).find? p = some j := by
  intro n
  induction n with
  | zero => intro s j h1 h2 _ _; omega
  | succ n ih =>
    intro s j h1 h2 hj hprev
    rw [List.range'_succ]
    by_cases hsj : s = j
    · subst hsj
      exact List.find?_cons_of_pos _ hj
    · have hps : p s = false := hprev s (le_refl s) (by omega)
      rw [List.find?_cons_of_neg _ (by simp [hps])]
      exact ih (s + 1) j (by omega) (by omega) hj fun i hi1 hi2 => hprev i (by omega) hi2

/-- `find?` over `range'` fails when no index satisfies the predicate. -/
theorem find?_range'_eq_none (p : ℕ → Bool) :
    ∀ (n s : ℕ), (∀ i, s ≤ i → i < s + n → p i = false) →
      (List.range' s n).find? p = none := by
  intro n
  induction n with
  | zero => intro s _; rfl
  | succ n ih =>
    intro s hprev
    rw [List.range'_succ]
    rw [List.find?_cons_of_neg _ (by simp [hprev s (le_refl s) (by omega)])]
    exact ih (s + 1) fun i hi1 hi2 => hprev i (by omega) (by omega)

/-- `find?` over `range` locates the first index satisfying the predicate. -/
theorem find?_range_eq_some (p : ℕ → Bool) (n j : ℕ) (h2 : j < n) (hj : p j = true)
    (hprev : ∀ i, i < j → p i = false) : (List.range n).find? p = some j := by
  rw [List.range_eq_range']
  exact find?_range'_eq_some p n 0 j (Nat.zero_le j) (by omega) hj fun i _ hi => hprev i hi

/-- `find?` over `range` fails when no index satisfies the predicate. -/
theorem find?_range_eq_none (p : ℕ → Bool) (n : ℕ)
    (hprev : ∀ i, i < n → p i = false) : (List.range n).find? p = none := by
  rw [List.range_eq_range']
  exact find?_range'_eq_none p n 0 fun i _ hi => hprev i (by omega)

/-- A two-byte marker test is a conjunction of two byte lookups. -/
theorem markerMatchesAt_two (data : List ℕ) (a b i : ℕ) :
    markerMatchesAt data [a, b] i =
      (decide (data[i]? = some a) && decide (data[i + 1]? = some b)) := by
  show (List.range 2).all _ = _
  rw [show List.range 2 = [0, 1] from rfl]
  simp [List.all_cons]

/-! ## The 4 KiB / 40 KiB preview buffer of claim C5 -/

/-- A well-formed marker-delimited span of `n` bytes (`n ≥ 4`): start-of-image
marker, zero filler, end-of-image marker. -/
def jpegSpan (n : ℕ) : List ℕ := [0xFF, 0xD8] ++ List.replicate (n - 4) 0 ++ [0xFF, 0xD9]

theorem jpegSpan_length (n : ℕ) (h : 4 ≤ n) : (jpegSpan n).length = n := by
  simp [jpegSpan]
  omega

/-- A RAW byte buffer holding a 4 KiB preview span followed by a 40 KiB
preview span. -/
def previewBuffer : List ℕ := jpegSpan 4096 ++ jpegSpan 40960

theorem previewBuffer_length : previewBuffer.length = 45056 := by
  unfold previewBuffer
  rw [List.length_append, jpegSpan_length 4096 (by norm_num),
    jpegSpan_length 40960 (by norm_num)]

/-- The bytes of `previewBuffer`, as a total function. -/
def bufByte (i : ℕ) : ℕ :=
  if i = 0 then 0xFF else if i = 1 then 0xD8
  else if i = 4094 then 0xFF else if i = 4095 then 0xD9
  else if i = 4096 then 0xFF else if i = 4097 then 0xD8
  else if i = 45054 then 0xFF else if i = 45055 then 0xD9 else 0

theorem jpegSpan_getElem? (n : ℕ) (h4 : 4 ≤ n) (i : ℕ) :
    (jpegSpan n)[i]? = if i = 0 then some 0xFF else if i = 1 then some 0xD8
      else if i < n - 2 then some 0 else if i = n - 2 then some 0xFF
      else if i = n - 1 then some 0xD9 else none := by
  have hspan : jpegSpan n = 0xFF :: 0xD8 :: (List.replicate (n - 4) 0 ++ [0xFF, 0xD9]) := by
    simp [jpegSpan]
  match i with
  | 0 => rw [hspan]; simp
  | 1 => rw [hspan]; simp
  | k + 2 =>
    rw [hspan, List.getElem?_cons_succ, List.getElem?_cons_succ, List.getElem?_append,
      List.length_replicate]
    by_cases hk : k < n - 4
    · rw [if_pos hk, List.getElem?_replicate, if_pos hk, if_neg (by omega), if_neg (by omega),
        if_pos (by omega)]
    · rw [if_neg hk]
      by_cases he : k = n - 4
      · rw [show k - (n - 4) = 0 by omega, if_neg (by omega), if_neg (by omega),
          if_neg (by omega), if_pos (by omega)]
        rfl
      · by_cases he2 : k = n - 3
        · rw [show k - (n - 4) = 1 by omega, if_neg (by omega), if_neg (by omega),
            if_neg (by omega), if_neg (by omega), if_pos (by omega)]
          rfl
        · rw [List.getElem?_eq_none (by simp; omega), if_neg (by omega), if_neg (by omega),
            if_neg (by omega), if_neg (by omega), if_neg (by omega)]

set_option maxHeartbeats 2000000 in
theorem previewBuffer_getElem? (i : ℕ) :
    previewBuffer[i]? = if i < 45056 then some (bufByte i) else none := by
  unfold previewBuffer
  rw [List.getElem?_append, jpegSpan_length 4096 (by norm_num)]
  by_cases hi : i < 4096
  · rw [if_pos hi, jpegSpan_getElem? 4096 (by norm_num) i]
    unfold bufByte
    split_ifs <;> first | rfl | omega
  · rw [if_neg hi, jpegSpan_getElem? 40960 (by norm_num) (i - 4096)]
    unfold bufByte
    split_ifs <;> first | rfl | omega

theorem bufByte_eq_ff (i : ℕ) (h : bufByte i = 0xFF) :
    i = 0 ∨ i = 4094 ∨ i = 4096 ∨ i = 45054 := by
  unfold bufByte at h
  split_ifs at h <;> omega

theorem bufByte_eq_d8 (i : ℕ) (h : bufByte i = 0xD8) : i = 1 ∨ i = 4097 := by
  unfold bufByte at h
  split_ifs at h <;> omega

theorem bufByte_eq_d9 (i : ℕ) (h : bufByte i = 0xD9) : i = 4095 ∨ i = 45055 := by
  unfold bufByte at h
  split_ifs at h <;> omega

/-- The predicate tested by `findJpegMarker`, at one candidate index. -/
theorem findJpegMarker_previewBuffer_pred (a b startOffset i : ℕ)
    (hp : (decide (startOffset ≤ i) && decide (i + ([a, b] : List ℕ).length ≤ previewBuffer.length) &&
      markerMatchesAt previewBuffer [a, b] i) = true) :
    startOffset ≤ i ∧ i + 2 ≤ 45056 ∧ bufByte i = a ∧ bufByte (i + 1) = b := by
  rw [markerMatchesAt_two] at hp
  simp only [Bool.and_eq_true, decide_eq_true_eq, List.length_cons, List.length_nil,
    previewBuffer_length] at hp
  obtain ⟨⟨ho, hb⟩, h1, h2⟩ := hp
  rw [previewBuffer_getElem?, if_pos (by omega)] at h1
  rw [previewBuffer_getElem?, if_pos (by omega)] at h2
  simp only [Option.some.injEq] at h1 h2
  exact ⟨ho, by omega, h1, h2⟩

/-- The converse: establish the marker predicate at a concrete index. -/
theorem findJpegMarker_previewBuffer_pred_intro (a b startOffset i : ℕ)
    (ho : startOffset ≤ i) (hb : i + 2 ≤ 45056) (h1 : bufByte i = a) (h2 : bufByte (i + 1) = b) :
    (decide (startOffset ≤ i) && decide (i + ([a, b] : List ℕ).length ≤ previewBuffer.length) &&
      markerMatchesAt previewBuffer [a, b] i) = true := by
  rw [markerMatchesAt_two]
  simp only [Bool.and_eq_true, decide_eq_true_eq, List.length_cons, List.length_nil,
    previewBuffer_length]
  refine ⟨⟨ho, by omega⟩, ?_, ?_⟩
  · rw [previewBuffer_getElem?, if_pos (by omega), h1]
  · rw [previewBuffer_getElem?, if_pos (by omega), h2]

theorem find_ffd8_from_0 : findJpegMarker previewBuffer [0xFF, 0xD8] 0 = some 0 := by
  unfold findJpegMarker
  apply find?_range_eq_some _ _ _ (by rw [previewBuffer_length]; norm_num)
  · exact findJpegMarker_previewBuffer_pred_intro _ _ _ _ (by norm_num) (by norm_num)
      (by decide) (by decide)
  · intro i hi
    omega

theorem find_ffd9_from_2 : findJpegMarker previewBuffer [0xFF, 0xD9] 2 = some 4094 := by
  unfold findJpegMarker
  apply find?_range_eq_some _ _ _ (by rw [previewBuffer_length]; norm_num)
  · exact findJpegMarker_previewBuffer_pred_intro _ _ _ _ (by norm_num) (by norm_num)
      (by decide) (by decide)
  · intro i hi
    rw [Bool.eq_false_iff]
    intro hp
    obtain ⟨ho, hb, h1, h2⟩ := findJpegMarker_previewBuffer_pred _ _ _ _ hp
    rcases bufByte_eq_ff i h1 with rfl | rfl | rfl | rfl <;>
      rcases bufByte_eq_d9 _ h2 with he | he <;> omega

theorem find_ffd8_from_2 : findJpegMarker previewBuffer [0xFF, 0xD8] 2 = some 4096 := by
  unfold findJpegMarker
  apply find?_range_eq_some _ _ _ (by rw [previewBuffer_length]; norm_num)
  · exact findJpegMarker_previewBuffer_pred_intro _ _ _ _ (by norm_num) (by norm_num)
      (by decide) (by decide)
  · intro i hi
    rw [Bool.eq_false_iff]
    intro hp
    obtain ⟨ho, hb, h1, h2⟩ := findJpegMarker_previewBuffer_pred _ _ _ _ hp
    rcases bufByte_eq_ff i h1 with rfl | rfl | rfl | rfl <;>
      rcases bufByte_eq_d8 _ h2 with he | he <;> omega

theorem find_ffd9_from_4098 : findJpegMarker previewBuffer [0xFF, 0xD9] 4098 = some 45054 := by
  unfold findJpegMarker
  apply find?_range_eq_some _ _ _ (by rw [previewBuffer_length]; norm_num)
  · exact findJpegMarker_previewBuffer_pred_intro _ _ _ _ (by norm_num) (by norm_num)
      (by decide) (by decide)
  · intro i hi
    rw [Bool.eq_false_iff]
    intro hp
    obtain ⟨ho, hb, h1, h2⟩ := findJpegMarker_previewBuffer_pred _ _ _ _ hp
    rcases bufByte_eq_ff i h1 with rfl | rfl | rfl | rfl <;>
      rcases bufByte_eq_d9 _ h2 with he | he <;> omega

theorem find_ffd8_from_4098 : findJpegMarker previewBuffer [0xFF, 0xD8] 4098 = none := by
  unfold findJpegMarker
  apply find?_range_eq_none
  intro i hi
  rw [Bool.eq_false_iff]
  intro hp
  obtain ⟨ho, hb, h1, h2⟩ := findJpegMarker_previewBuffer_pred _ _ _ _ hp
  rcases bufByte_eq_ff i h1 with rfl | rfl | rfl | rfl <;>
    first
    | omega
    | (rcases bufByte_eq_d8 _ h2 with he | he <;> omega)

/-- Unfolding the scan loop when no further start marker exists. -/
theorem collectPreviews_none (data : List ℕ) (s : ℕ)
    (h : findJpegMarker data [0xFF, 0xD8] s = none) : collectPreviews data s = [] := by
  rw [collectPreviews]
  split
  · rfl
  · rename_i j heq
    rw [h] at heq
    cases heq

/-- Unfolding the scan loop when a start marker and a following end marker
exist. -/
theorem collectPreviews_some_some (data : List ℕ) (s jpegStart jpegEnd : ℕ)
    (h8 : findJpegMarker data [0xFF, 0xD8] s = some jpegStart)
    (h9 : findJpegMarker data [0xFF, 0xD9] (jpegStart + 2) = some jpegEnd) :
    collectPreviews data s =
      (if 1024 < (jsSlice data jpegStart (jpegEnd + 2)).length
        then [jsSlice data jpegStart (jpegEnd + 2)] else []) ++
        collectPreviews data (jpegStart + 2) := by
  rw [collectPreviews]
  split
  · rename_i heq
    rw [h8] at heq
    cases heq
  · rename_i j heq
    rw [h8] at heq
    injection heq with heq
    subst heq
    dsimp only
    split
    · rename_i heq2
      rw [h9] at heq2
      cases heq2
    · rename_i e heq2
      rw [h9] at heq2
      injection heq2 with heq2
      subst heq2
      by_cases hlen : 1024 < (jsSlice data jpegStart (jpegEnd + 2)).length
      · rw [if_pos hlen, if_pos hlen]
        rfl
      · rw [if_neg hlen, if_neg hlen]
        rfl

theorem jsSlice_first_span : jsSlice previewBuffer 0 (4094 + 2) = jpegSpan 4096 := by
  unfold jsSlice previewBuffer
  rw [List.drop_zero, show 4094 + 2 - 0 = 4096 by norm_num]
  exact List.take_left' (jpegSpan_length 4096 (by norm_num))

theorem jsSlice_second_span : jsSlice previewBuffer 4096 (45054 + 2) = jpegSpan 40960 := by
  unfold jsSlice previewBuffer
  rw [show 45054 + 2 - 4096 = 40960 by norm_num,
    List.drop_left' (jpegSpan_length 4096 (by norm_num))]
  exact List.take_of_length_le (le_of_eq (jpegSpan_length 40960 (by norm_num)))

/-- The scan over the two-span buffer collects exactly the two spans, in
order. -/
theorem collectPreviews_previewBuffer :
    collectPreviews previewBuffer 0 = [jpegSpan 4096, jpegSpan 40960] := by
  rw [collectPreviews_some_some previewBuffer 0 0 4094 find_ffd8_from_0
      (by exact find_ffd9_from_2),
    jsSlice_first_span, if_pos (by rw [jpegSpan_length 4096 (by norm_num)]; norm_num),
    show (0:ℕ) + 2 = 2 by norm_num,
    collectPreviews_some_some previewBuffer 2 4096 45054 find_ffd8_from_2
      (by exact find_ffd9_from_4098),
    jsSlice_second_span, if_pos (by rw [jpegSpan_length 40960 (by norm_num)]; norm_num),
    show (4096:ℕ) + 2 = 4098 by norm_num,
    collectPreviews_none previewBuffer 4098 find_ffd8_from_4098]
  rfl

/-! ## Claim C5: largest-preview selection -/

/-- C5: `findBestJpegPreview` returns `none` exactly when no candidate span
(a start-marker-to-nearest-end-marker span longer than 1 KiB) exists;
otherwise it returns a candidate of maximal length; every candidate exceeds
1024 bytes; and on a buffer holding a 4 KiB span followed by a 40 KiB span
it returns the 40 KiB span. -/
theorem findBestJpegPreview_spec :
    (∀ (data : List ℕ) (p : List ℕ), findBestJpegPreview data = some p →
      p ∈ collectPreviews data 0 ∧ ∀ q ∈ collectPreviews data 0, q.length ≤ p.length)
    ∧ (∀ data : List ℕ, findBestJpegPreview data = none ↔ collectPreviews data 0 = [])
    ∧ (∀ (data : List ℕ) (q : List ℕ), q ∈ collectPreviews data 0 → 1024 < q.length)
    ∧ findBestJpegPreview previewBuffer = some (jpegSpan 40960)
    ∧ (jpegSpan 4096).length = 4096 ∧ (jpegSpan 40960).length = 40960 := by
  have hbest : ∀ data : List ℕ, findBestJpegPreview data = match collectPreviews data 0 with
      | [] => none
      | p :: rest => some (rest.foldl (fun largest current =>
          if largest.length < current.length then current else largest) p) := fun data => rfl
  refine ⟨?_, ?_, ?_, ?_, jpegSpan_length 4096 (by norm_num),
    jpegSpan_length 40960 (by norm_num)⟩
  · intro data p h
    rw [hbest data] at h
    split at h
    · cases h
    · rename_i p0 rest heq
      injection h with h
      obtain ⟨h1, h2, h3⟩ := foldl_largest rest p0
      subst h
      rw [heq]
      refine ⟨?_, ?_⟩
      · rcases h1 with h | h
        · rw [h]; exact List.mem_cons_self _ _
        · exact List.mem_cons_of_mem _ h
      · intro q hq
        rcases List.mem_cons.1 hq with rfl | hq
        · exact h2
        · exact h3 q hq
  · intro data
    rw [hbest data]
    split
    · rename_i heq
      simp [heq]
    · rename_i p0 rest heq
      simp [heq]
  · exact fun data q h => collectPreviews_length data 0 q h
  · rw [hbest previewBuffer, collectPreviews_previewBuffer]
    dsimp only
    rw [List.foldl_cons, List.foldl_nil, jpegSpan_length 4096 (by norm_num),
      jpegSpan_length 40960 (by norm_num), if_pos (by norm_num)]

/-- Witness for C5: on the two-span buffer the returned span is a candidate
of maximal length. -/
theorem findBestJpegPreview_spec_witness :
    jpegSpan 40960 ∈ collectPreviews previewBuffer 0 ∧
    ∀ q ∈ collectPreviews previewBuffer 0, q.length ≤ (jpegSpan 40960).length :=
  findBestJpegPreview_spec.1 previewBuffer (jpegSpan 40960)
    findBestJpegPreview_spec.2.2.2.1

/-! ## qualityAnalysis.ts: calculateBlurScore -/

/-- Luminance of an RGB pixel as a real number (qualityAnalysis.ts lines
106-112 use the same `0.299/0.587/0.114` weights, unrounded). -/
noncomputable def lumR (p : ℕ × ℕ × ℕ) : ℝ :=
  0.299 * (p.1 : ℝ) + 0.587 * (p.2.1 : ℝ) + 0.114 * (p.2.2 : ℝ)

/-- The sampled coordinates of one axis of `calculateBlurScore`
(qualityAnalysis.ts lines 102-103): `for (v = step; v < limit - step; v += step)`. -/
def sampleAxis (limit step : ℕ) : List ℕ :=
  (List.range limit).filter fun v =>
    decide (step ≤ v) && decide (v % step = 0) && decide (v < limit - step)

/-- `calculateBlurScore` (qualityAnalysis.ts lines 86-124) over an abstract
pixel grid (`pix x y` is the RGB sample at column `x`, row `y`; the source
reads `data[(y * width + x) * 4 + c]`).  The stride is
`Math.max(1, Math.floor(1 / 0.25)) = 4` on both axes.  Each sampled point
contributes `magnitude * magnitude` where
`magnitude = Math.sqrt(dx * dx + dy * dy)`; the score is
`Math.sqrt(sum / count)` when any point was sampled, else 0. -/
noncomputable def calculateBlurScore (pix : ℕ → ℕ → ℕ × ℕ × ℕ) (width height : ℕ) : ℝ :=
  let step : ℕ := 4
  let terms := (sampleAxis height step).flatMap fun y =>
    (sampleAxis width step).map fun x =>
      let gray := lumR (pix x y)
      let rightGray := lumR (pix (x + step) y)
      let bottomGray := lumR (pix x (y + step))
      let dx := rightGray - gray
      let dy := bottomGray - gray
      let magnitude := Real.sqrt (dx * dx + dy * dy)
      magnitude * magnitude
  if 0 < terms.length then Real.sqrt (terms.sum / (terms.length : ℝ)) else 0

/-! ## Claim C8: flat images score exactly 0 -/

/-- C8: an image whose pixels all share one luminance has sharpness score
exactly 0: every sampled gradient is 0, so the mean squared magnitude and
its square root are 0. -/
theorem calculateBlurScore_flat (pix : ℕ → ℕ → ℕ × ℕ × ℕ) (width height : ℕ)
    (hflat : ∀ x y x2 y2, lumR (pix x y) = lumR (pix x2 y2)) :
    calculateBlurScore pix width height = 0 := by
  unfold calculateBlurScore
  dsimp only
  have hterm : ∀ r ∈ (sampleAxis height 4).flatMap fun y =>
      (sampleAxis width 4).map fun x =>
        Real.sqrt ((lumR (pix (x + 4) y) - lumR (pix x y)) * (lumR (pix (x + 4) y) - lumR (pix x y))
          + (lumR (pix x (y + 4)) - lumR (pix x y)) * (lumR (pix x (y + 4)) - lumR (pix x y))) *
        Real.sqrt ((lumR (pix (x + 4) y) - lumR (pix x y)) * (lumR (pix (x + 4) y) - lumR (pix x y))
          + (lumR (pix x (y + 4)) - lumR (pix x y)) * (lumR (pix x (y + 4)) - lumR (pix x y))),
      r = 0 := by
    intro r hr
    rw [List.mem_flatMap] at hr
    obtain ⟨y, _, hr⟩ := hr
    rw [List.mem_map] at hr
    obtain ⟨x, _, hr⟩ := hr
    rw [hflat (x + 4) y x y, hflat x (y + 4) x y] at hr
    simp only [sub_self, mul_zero, zero_mul, add_zero, Real.sqrt_zero] at hr
    exact hr.symm
  have hsum : ((sampleAxis height 4).flatMap fun y =>
      (sampleAxis width 4).map fun x =>
        Real.sqrt ((lumR (pix (x + 4) y) - lumR (pix x y)) * (lumR (pix (x + 4) y) - lumR (pix x y))
          + (lumR (pix x (y + 4)) - lumR (pix x y)) * (lumR (pix x (y + 4)) - lumR (pix x y))) *
        Real.sqrt ((lumR (pix (x + 4) y) - lumR (pix x y)) * (lumR (pix (x + 4) y) - lumR (pix x y))
          + (lumR (pix x (y + 4)) - lumR (pix x y)) * (lumR (pix x (y + 4)) - lumR (pix x y)))).sum
      = 0 := List.sum_eq_zero hterm
  split
  · rw [hsum, zero_div, Real.sqrt_zero]
  · rfl

/-- Witness for C8 on a concrete 12-by-12 constant-gray image. -/
theorem calculateBlurScore_flat_witness :
    calculateBlurScore (fun _ _ => (100, 100, 100)) 12 12 = 0 :=
  calculateBlurScore_flat (fun _ _ => (100, 100, 100)) 12 12 fun _ _ _ _ => rfl

/-! ## scanner.js: DirectoryScanner.scanDirectory -/

/-- The progress snapshot of `DirectoryScanner` (scanner.js lines 20-25). -/
structure ScanProgress where
  totalFiles : ℕ
  processedFiles : ℕ
  currentFile : String
  phase : String
  deriving DecidableEq

/-- The mutable state of a `DirectoryScanner` (scanner.js lines 17-27). -/
structure ScannerState where
  isScanning : Bool
  progress : ScanProgress
  thumbnailsDir : Option String
  deriving DecidableEq

/-- The progress reset performed at the start of a scan (scanner.js lines
50-55). -/
def initialProgress : ScanProgress :=
  { totalFiles := 0, processedFiles := 0, currentFile := "", phase := "scanning" }

/-- `DirectoryScanner.scanDirectory` (scanner.js lines 42-93).  The body of
the `try` block (directory walking, thumbnailing, progress updates, lines
57-88) is abstracted as a state transformer `body` that either returns the
photo list or throws; the function models the guard (lines 43-45), the flag
set and progress reset (lines 48-55), and the `finally` clearing of the flag
(lines 90-92) around it. -/
def scanDirectory {α : Type} (s : ScannerState)
    (body : ScannerState → Except String α × ScannerState) :
    Except String α × ScannerState :=
  if s.isScanning then (Except.error "Scan already in progress", s)
  else
    let s1 : ScannerState :=
      { isScanning := true, thumbnailsDir := none, progress := initialProgress }
    let r := body s1
    (r.1, { r.2 with isScanning := false })

/-! ## Claim C9: exclusive scanning -/

/-- C9: a scan started while one is in flight throws
`"Scan already in progress"` immediately, leaving the in-flight scan's state
untouched; a scan started when idle always clears the scanning flag on
completion, whether the body returns or throws, so a subsequent scan runs
its body rather than being rejected. -/
theorem scanDirectory_exclusive {α : Type} (s : ScannerState)
    (body : ScannerState → Except String α × ScannerState) :
    (s.isScanning = true →
      scanDirectory s body = (Except.error "Scan already in progress", s))
    ∧ (s.isScanning = false → (scanDirectory s body).2.isScanning = false)
    ∧ (s.isScanning = false → ∀ (body2 : ScannerState → Except String α × ScannerState),
        scanDirectory (scanDirectory s body).2 body2 =
          ((body2 (ScannerState.mk true initialProgress none)).1,
            { (body2 (ScannerState.mk true initialProgress none)).2 with
              isScanning := false })) := by
  refine ⟨fun h => ?_, fun h => ?_, fun h body2 => ?_⟩
  · unfold scanDirectory
    rw [if_pos h]
  · unfold scanDirectory
    rw [if_neg (by rw [h]; exact Bool.false_ne_true)]
  · unfold scanDirectory
    rw [if_neg (by rw [h]; exact Bool.false_ne_true)]

/-- Witness for C9: a rejected second scan on a busy scanner state. -/
theorem scanDirectory_exclusive_witness :
    scanDirectory (ScannerState.mk true initialProgress none)
        (fun st => (Except.ok ([] : List String), st)) =
      (Except.error "Scan already in progress", ScannerState.mk true initialProgress none) :=
  (scanDirectory_exclusive (ScannerState.mk true initialProgress none)
    (fun st => (Except.ok ([] : List String), st))).1 rfl

/-! ## index.js: the trash lifecycle -/

/-- The `.metadata.json` sidecar suffix (index.js lines 59, 239, 280). -/
def metadataSuffix : List Char := ".metadata.json".toList

/-- `join(dir, file)` for the flat paths the trash code builds. -/
def joinPath (dir file : List Char) : List Char := dir ++ '/' :: file

/-- JS `path.split("/").pop()`: the substring after the last slash. -/
def basename (s : List Char) : List Char :=
  (s.reverse.takeWhile fun c => decide (c ≠ '/')).reverse

/-- A trash sidecar record (index.js lines 224-231), with the `trashDir`
field attached when read back by `getAllTrashFiles` (line 64).  Strings are
`List Char`; `deletedAt` (a wall-clock timestamp in the source) is carried
opaquely. -/
structure TrashMeta where
  id : List Char
  originalPath : List Char
  filename : List Char
  size : ℕ
  deletedAt : List Char
  tempPath : Option (List Char)
  trashDir : List Char
  deriving DecidableEq

/-- The sidecar path derived for an entry in the empty-trash route
(index.js lines 279-282): `{basename(tempPath)}.metadata.json` inside the
entry's trash directory. -/
def sidecarOf (m : TrashMeta) (tp : List Char) : List Char :=
  joinPath m.trashDir (basename tp ++ metadataSuffix)

/-- The loop of the `DELETE /api/photos/empty-trash` route (index.js lines
270-287) over the sidecar records, against a filesystem modelled as the list
of existing paths.  `unlink` of a missing path throws; the per-entry
`try/catch` turns that into a logged failure (the third component) without
stopping the loop; `deletedCount` is incremented only after the backing file
itself is unlinked. -/
def emptyTrashLoop : List TrashMeta → List (List Char) → ℕ →
    ℕ × List (List Char) × List TrashMeta
  | [], files, count => (count, files, [])
  | m :: rest, files, count =>
    match m.tempPath with
    | some tp =>
      if tp ∈ files then
        let files1 := files.erase tp
        if sidecarOf m tp ∈ files1 then emptyTrashLoop rest (files1.erase (sidecarOf m tp)) (count + 1)
        else
          let r := emptyTrashLoop rest files1 (count + 1)
          (r.1, r.2.1, m :: r.2.2)
      else
        let r := emptyTrashLoop rest files count
        (r.1, r.2.1, m :: r.2.2)
    | none =>
      let mp := joinPath m.trashDir (m.id ++ metadataSuffix)
      if mp ∈ files then emptyTrashLoop rest (files.erase mp) count
      else
        let r := emptyTrashLoop rest files count
        (r.1, r.2.1, m :: r.2.2)

/-- `emptyTrash` over the sidecar records returned by `getAllTrashFiles`:
final `deletedCount`, final filesystem, and the entries whose deletion
failed (each logged by the source's `catch`). -/
def emptyTrash (trashFiles : List TrashMeta) (files : List (List Char)) :
    ℕ × List (List Char) × List TrashMeta :=
  emptyTrashLoop trashFiles files 0

/-- One attempt of the JS regex `/\s*\([^)]*\)/` at the head of the string:
optional whitespace, an opening parenthesis, non-parenthesis characters, and
a closing parenthesis.  Returns the remainder after the match. -/
def matchParen (cs : List Char) : Option (List Char) :=
  match cs.dropWhile (fun c => c.isWhitespace) with
  | '(' :: t =>
    match t.dropWhile (fun c => decide (c ≠ ')')) with
    | ')' :: r => some r
    | _ => none
  | _ => none

theorem matchParen_length (cs r : List Char) (h : matchParen cs = some r) :
    r.length < cs.length := by
  unfold matchParen at h
  split at h
  · rename_i t heq1
    split at h
    · rename_i r2 heq2
      injection h with h
      subst h
      have l1 : ('(' :: t).length ≤ cs.length := by
        rw [← heq1]
        exact ((List.dropWhile_suffix _).sublist).length_le
      have l2 : (')' :: r2).length ≤ t.length := by
        rw [← heq2]
        exact ((List.dropWhile_suffix _).sublist).length_le
      simp only [List.length_cons] at l1 l2
      omega
    · cases h
  · cases h

set_option linter.unusedVariables false in
/-- `filename.replace(/\s*\([^)]*\)/g, "")` (index.js lines 211-214): remove
every whitespace-prefixed parenthesised run, scanning left to right. -/
def replaceParens : List Char → List Char
  | [] => []
  | c :: cs =>
    match h : matchParen (c :: cs) with
    | some rest => replaceParens rest
    | none => c :: replaceParens cs
  termination_by l => l.length
  decreasing_by
  · exact matchParen_length _ _ h
  · simp only [List.length_cons]
    omega

/-- The JS path-absolutising step of the move-to-trash route (index.js lines
193-196). -/
def resolvePath (cwd p : List Char) : List Char :=
  if p.head? = some '/' then p else cwd ++ '/' :: p

/-- A request record of the `POST /api/photos/move-to-trash` route. -/
structure PhotoReq where
  id : List Char
  path : Option (List Char)
  filename : List Char
  size : ℕ
  deriving DecidableEq

/-- The loop of the move-to-trash route (index.js lines 184-252) against a
filesystem modelled as the list of existing paths.  Per record: a missing or
empty `path` is skipped (lines 187-191); a path absent from the filesystem
makes `fs.access` throw, caught and skipped (lines 198-204); otherwise the
file is renamed into the trash under
`{timestamp}_{filename stripped of parenthesised suffixes}` and a sidecar is
written, and the metadata joins the result list (lines 206-244).
`Date.now()` is the parameter `ts`; the wall-clock `deletedAt` string is
abstracted as empty. -/
def moveToTrashLoop (cwd trashDir : List Char) (ts : ℕ) :
    List PhotoReq → List (List Char) → List TrashMeta × List (List Char)
  | [], files => ([], files)
  | photo :: rest, files =>
    match photo.path with
    | none => moveToTrashLoop cwd trashDir ts rest files
    | some p =>
      if p.isEmpty then moveToTrashLoop cwd trashDir ts rest files
      else
        let absolutePath := resolvePath cwd p
        if absolutePath ∈ files then
          let originalFilename := replaceParens photo.filename
          let trashFilename := (toString ts).toList ++ '_' :: originalFilename
          let trashPath := joinPath trashDir trashFilename
          let files1 := files.erase absolutePath ++ [trashPath]
          let metadata : TrashMeta :=
            { id := photo.id, originalPath := absolutePath, filename := originalFilename,
              size := photo.size, deletedAt := [], tempPath := some trashPath,
              trashDir := trashDir }
          let metadataPath := joinPath trashDir (trashFilename ++ metadataSuffix)
          let r := moveToTrashLoop cwd trashDir ts rest (files1 ++ [metadataPath])
          (metadata :: r.1, r.2)
        else moveToTrashLoop cwd trashDir ts rest files

/-- The move-to-trash route body: the returned `deletedFiles` list and the
final filesystem. -/
def moveToTrash (photos : List PhotoReq) (files : List (List Char))
    (cwd trashDir : List Char) (ts : ℕ) : List TrashMeta × List (List Char) :=
  moveToTrashLoop cwd trashDir ts photos files

/-! ## Claim C6: emptying a trash with an orphaned sidecar -/

/-- C6 (amended): over a trash directory holding three valid entries
(backing file plus sidecar) and one orphaned sidecar whose backing file is
missing, `emptyTrash` completes without throwing, reports `deletedCount = 3`
(one per valid backing file actually deleted), logs the orphan as the single
failed entry, and leaves the orphan's sidecar in place; the orphan's failure
does not block the other deletions. -/
theorem emptyTrash_three_valid_one_orphan
    (m1 m2 m3 m4 : TrashMeta) (tp1 tp2 tp3 tp4 : List Char)
    (e1 : m1.tempPath = some tp1) (e2 : m2.tempPath = some tp2)
    (e3 : m3.tempPath = some tp3) (e4 : m4.tempPath = some tp4)
    (horphan : tp4 ∉ [tp1, sidecarOf m1 tp1, tp2, sidecarOf m2 tp2, tp3, sidecarOf m3 tp3,
      sidecarOf m4 tp4]) :
    (emptyTrash [m1, m2, m3, m4]
        [tp1, sidecarOf m1 tp1, tp2, sidecarOf m2 tp2, tp3, sidecarOf m3 tp3,
          sidecarOf m4 tp4]).1 = 3
    ∧ (emptyTrash [m1, m2, m3, m4]
        [tp1, sidecarOf m1 tp1, tp2, sidecarOf m2 tp2, tp3, sidecarOf m3 tp3,
          sidecarOf m4 tp4]).2.2 = [m4]
    ∧ sidecarOf m4 tp4 ∈ (emptyTrash [m1, m2, m3, m4]
        [tp1, sidecarOf m1 tp1, tp2, sidecarOf m2 tp2, tp3, sidecarOf m3 tp3,
          sidecarOf m4 tp4]).2.1 := by
  simp only [List.mem_cons, List.not_mem_nil, or_false, not_or] at horphan
  have h4 : ¬(tp4 = sidecarOf m4 tp4) := horphan.2.2.2.2.2.2
  simp [emptyTrash, emptyTrashLoop, e1, e2, e3, e4, List.erase_cons_head, h4]

/-- The concrete trash directory of the C6 scenario. -/
def trashDirCE : List Char := "/p/.trash".toList

/-- A sidecar record of the C6 scenario. -/
def metaCE (tp idc : List Char) : TrashMeta :=
  { id := idc, originalPath := idc, filename := idc, size := 1, deletedAt := [],
    tempPath := some tp, trashDir := trashDirCE }

def tpCE1 : List Char := "/p/.trash/1_a.jpg".toList
def tpCE2 : List Char := "/p/.trash/2_b.jpg".toList
def tpCE3 : List Char := "/p/.trash/3_c.jpg".toList
def tpCE4 : List Char := "/p/.trash/4_d.jpg".toList

/-- The four sidecar records: three valid entries and one orphan. -/
def orphanScenarioEntries : List TrashMeta :=
  [metaCE tpCE1 "a".toList, metaCE tpCE2 "b".toList, metaCE tpCE3 "c".toList,
   metaCE tpCE4 "d".toList]

/-- The trash directory contents: the three valid backing files, all four
sidecars, and no backing file for the fourth entry. -/
def orphanScenarioFiles : List (List Char) :=
  [tpCE1, sidecarOf (metaCE tpCE1 "a".toList) tpCE1,
   tpCE2, sidecarOf (metaCE tpCE2 "b".toList) tpCE2,
   tpCE3, sidecarOf (metaCE tpCE3 "c".toList) tpCE3,
   sidecarOf (metaCE tpCE4 "d".toList) tpCE4]

/-- Counterexample to C6 as stated: on the 3-valid-plus-1-orphan scenario the
route reports `deletedCount = 3`, not 2. -/
theorem emptyTrash_orphan_count_is_three_not_two :
    (emptyTrash orphanScenarioEntries orphanScenarioFiles).1 = 3 ∧
    ¬((emptyTrash orphanScenarioEntries orphanScenarioFiles).1 = 2) := by
  refine ⟨?_, ?_⟩ <;> decide

/-- Witness for the amended C6 on the concrete scenario. -/
theorem emptyTrash_three_valid_one_orphan_witness :
    (emptyTrash orphanScenarioEntries orphanScenarioFiles).1 = 3
    ∧ (emptyTrash orphanScenarioEntries orphanScenarioFiles).2.2 =
        [metaCE tpCE4 "d".toList]
    ∧ sidecarOf (metaCE tpCE4 "d".toList) tpCE4 ∈
        (emptyTrash orphanScenarioEntries orphanScenarioFiles).2.1 :=
  emptyTrash_three_valid_one_orphan
    (metaCE tpCE1 "a".toList) (metaCE tpCE2 "b".toList) (metaCE tpCE3 "c".toList)
    (metaCE tpCE4 "d".toList) tpCE1 tpCE2 tpCE3 tpCE4 rfl rfl rfl rfl (by decide)

/-! ## Claim C7: per-record failure tolerance of moveToTrash -/

/-- The ids returned by the move-to-trash loop form a sublist of the request
ids: every failure is skipped without aborting the rest of the batch. -/
theorem moveToTrashLoop_ids_sublist (cwd trashDir : List Char) (ts : ℕ) :
    ∀ (photos : List PhotoReq) (files : List (List Char)),
      ((moveToTrashLoop cwd trashDir ts photos files).1.map TrashMeta.id).Sublist
        (photos.map PhotoReq.id) := by
  intro photos
  induction photos with
  | nil => intro files; simp [moveToTrashLoop]
  | cons photo rest ih =>
    intro files
    cases hp : photo.path with
    | none =>
      simp only [moveToTrashLoop, hp, List.map_cons]
      exact (ih files).cons _
    | some p =>
      simp only [moveToTrashLoop, hp, List.map_cons]
      by_cases he : p.isEmpty
      · rw [if_pos he]
        exact (ih files).cons _
      · rw [if_neg he]
        by_cases hm : resolvePath cwd p ∈ files
        · rw [if_pos hm]
          dsimp only
          simp only [List.map_cons]
          exact List.Sublist.cons₂ _ (ih _)
        · rw [if_neg hm]
          exact (ih files).cons _

/-- C7: the result list of the move-to-trash route only ever contains
(in order) records of the batch — per-record failures are excluded without
aborting — and on a batch of one non-existent and one existing source path
the route returns exactly the one successful entry. -/
theorem moveToTrash_partial_failure :
    (∀ (photos : List PhotoReq) (files : List (List Char)) (cwd trashDir : List Char) (ts : ℕ),
      ((moveToTrash photos files cwd trashDir ts).1.map TrashMeta.id).Sublist
        (photos.map PhotoReq.id))
    ∧ ∀ (p1 p2 : PhotoReq) (pa1 pa2 : List Char) (files : List (List Char))
        (cwd trashDir : List Char) (ts : ℕ),
        p2.path = some pa2 → pa2.isEmpty = false → resolvePath cwd pa2 ∉ files →
        p1.path = some pa1 → pa1.isEmpty = false → resolvePath cwd pa1 ∈ files →
        (moveToTrash [p2, p1] files cwd trashDir ts).1.map TrashMeta.id = [p1.id] := by
  constructor
  · intro photos files cwd trashDir ts
    exact moveToTrashLoop_ids_sublist cwd trashDir ts photos files
  · intro p1 p2 pa1 pa2 files cwd trashDir ts h2p h2e h2m h1p h1e h1m
    simp only [moveToTrash, moveToTrashLoop, h2p, h1p]
    rw [if_neg (by rw [h2e]; exact Bool.false_ne_true), if_neg h2m,
      if_neg (by rw [h1e]; exact Bool.false_ne_true), if_pos h1m]
    rfl

/-- Witness for C7 on a concrete two-record batch. -/
theorem moveToTrash_partial_failure_witness :
    ((PhotoReq.mk "idb".toList (some "/x/b.jpg".toList) "b.jpg".toList 2).path =
        some "/x/b.jpg".toList ∧
      ("/x/b.jpg".toList).isEmpty = false ∧
      resolvePath "/w".toList "/x/b.jpg".toList ∉ ["/x/a.jpg".toList] ∧
      (PhotoReq.mk "ida".toList (some "/x/a.jpg".toList) "a.jpg".toList 1).path =
        some "/x/a.jpg".toList ∧
      ("/x/a.jpg".toList).isEmpty = false ∧
      resolvePath "/w".toList "/x/a.jpg".toList ∈ ["/x/a.jpg".toList]) ∧
    (moveToTrash
        [PhotoReq.mk "idb".toList (some "/x/b.jpg".toList) "b.jpg".toList 2,
         PhotoReq.mk "ida".toList (some "/x/a.jpg".toList) "a.jpg".toList 1]
        ["/x/a.jpg".toList] "/w".toList "/t".toList 7).1.map TrashMeta.id =
      [(PhotoReq.mk "ida".toList (some "/x/a.jpg".toList) "a.jpg".toList 1).id] :=
  ⟨⟨rfl, by decide, by decide, rfl, by decide, by decide⟩,
    moveToTrash_partial_failure.2
      (PhotoReq.mk "ida".toList (some "/x/a.jpg".toList) "a.jpg".toList 1)
      (PhotoReq.mk "idb".toList (some "/x/b.jpg".toList) "b.jpg".toList 2)
      "/x/a.jpg".toList "/x/b.jpg".toList ["/x/a.jpg".toList] "/w".toList "/t".toList 7
      rfl (by decide) (by decide) rfl (by decide) (by decide)⟩
